import Mathlib

/-!
# CHIP-8 interpreter: a shallow embedding of `src/chip8/main.c`

The development embeds the machine state (`Chip_Context`, `Screen_Context`), the start-up
code (`setup`, `load_game`) and the fetch-decode-execute step (`execute_instruction`) of the
emulator, and proves properties of single steps, of short runs, and of the states reached
from the state `setup` builds.

Conventions of the embedding.

* C arrays are functions `Nat → Nat` from an index to the stored value; only the indices
  below the array's extent belong to the array.  An access at an index outside the extent has
  no defined behaviour in C (the program performs no bounds check); such executions are
  reported as `Except.error` with the offending index, so that every statement about a result
  `Except.ok` is a statement about an execution whose behaviour C defines.
* `uint8_t` and `uint16_t` values are natural numbers; every assignment that converts an `int`
  expression to one of these types reduces it modulo `2^8` or `2^16` explicitly.  Assignments
  between objects of the same type copy the value.
* `int` expressions that may be negative are computed in `Int`; the C remainder `%` on them is
  `Int.tmod` (truncation towards zero).
* `rand()` is an input of the step (the value the call returns when it is made).
* The diagnostic printed on `stderr` for an unsupported instruction is not modelled apart from
  the value `valid_instruction` returned by the step: the message is printed exactly when that
  value is `false`.
-/

namespace Chip8

/-! ## Constants (`constants.h`) -/

/-- Modelled from the spec: `constants.h` is not among the sources. `MEMORY_SIZE` is the length
of `memory`, "ordered sequence of 4096 bytes". -/
def MEMORY_SIZE : Nat := 4096

/-- Modelled from the spec: `constants.h` is not among the sources. `STACK_SIZE` is the length
of `stack`, "up to 16 return addresses"; taken to be the plain integer constant `16`, so that
arithmetic with it is `int` arithmetic. -/
def STACK_SIZE : Nat := 16

/-- Modelled from the spec: `constants.h` is not among the sources. `REGISTER_COUNT` is the
number of registers, "16 general-purpose byte registers `V0..VF`". -/
def REGISTER_COUNT : Nat := 16

/-- Modelled from the spec: `constants.h` is not among the sources. `SCREEN_WIDTH` is the
display width, "`WIDTH × HEIGHT` (64×32)". -/
def SCREEN_WIDTH : Nat := 64

/-- Modelled from the spec: `constants.h` is not among the sources. `SCREEN_HEIGHT` is the
display height, "`WIDTH × HEIGHT` (64×32)". -/
def SCREEN_HEIGHT : Nat := 32

/-- Modelled from the spec: `constants.h` is not among the sources. `PIXEL_COUNT` is the
length of `pixel`, "all 2048 pixels". -/
def PIXEL_COUNT : Nat := 2048

/-- Modelled from the spec: `constants.h` is not among the sources. `KEYBOARD_COUNT` is the
number of keys, "16-key input latch". -/
def KEYBOARD_COUNT : Nat := 16

/-- Modelled from the spec: `constants.h` is not among the sources. `CHARACTER_SET_SIZE` is
the length of the font table, "bytes `[0, 80)`". -/
def CHARACTER_SET_SIZE : Nat := 80

/-- Modelled from the spec: `constants.h` is not among the sources. `MEMORY_PROGRAM_START` is
the load address, "program counter set to 512". -/
def MEMORY_PROGRAM_START : Nat := 512

/-- Modelled from the spec: `constants.h` is not among the sources. `FALSE` is the integer
`0` ("off"). -/
def FALSE : Nat := 0

/-- Modelled from the spec: `constants.h` is not among the sources. `TRUE` is the integer
`1` ("on"). -/
def TRUE : Nat := 1

/-- Width in bits of the C type `int` on the platforms the emulator is built for; a shift of
an `int` by this many bits or more has no defined behaviour. -/
def INT_WIDTH : Nat := 32

/-! ## Machine state -/

/-- The operations whose behaviour C leaves undefined and that the step can reach: an array
access outside the array, and a shift by at least the width of the shifted type. The program
does not detect them; the embedding stops there. -/
inductive Undefined where
  | memory_index (i : Nat)
  | stack_index (i : Nat)
  | shift_count (n : Nat)
  deriving DecidableEq, Repr

/-- The display, `Screen_Context`: `int pixel[PIXEL_COUNT]`, row-major, a pixel is on when its
entry is non-zero. The entries the program stores are `FALSE`, or an exclusive or with `0` or
`1`. -/
structure Screen_Context where
  pixel : Nat → Nat

/-- The machine state, `Chip_Context`. -/
structure Chip_Context where
  /-- The array `uint8_t memory[MEMORY_SIZE]`. -/
  memory : Nat → Nat
  /-- The array `uint16_t stack[STACK_SIZE]`. -/
  stack : Nat → Nat
  /-- The array `uint8_t registers[REGISTER_COUNT]`. -/
  registers : Nat → Nat
  /-- The index register, `uint16_t`. -/
  memory_register : Nat
  /-- A `uint8_t`. -/
  delay_timer : Nat
  /-- A `uint8_t`. -/
  sound_timer : Nat
  /-- A `uint8_t`. -/
  stack_pointer : Nat
  /-- A `uint16_t`. -/
  program_counter : Nat
  /-- The current key latch, `uint16_t`. -/
  controller : Nat
  /-- The key latch before the last key event, `uint16_t`. -/
  controller_prev : Nat

/-- The two global objects the step works on: `emulator` and `screen`. -/
structure Machine where
  emulator : Chip_Context
  screen : Screen_Context

/-- The array `a` after the assignment `a[i] = v`. -/
def write (a : Nat → Nat) (i v : Nat) : Nat → Nat :=
  fun k => if k = i then v else a k

/-- Conversion of an `int` value to `uint8_t`. -/
def uint8 (v : Int) : Nat := (v % 256).toNat

/-- The value of a C truth value: `1` for true and `0` for false. -/
def c_bool (p : Prop) [Decidable p] : Nat := if p then 1 else 0

/-! ## Start-up: `setup` and `load_game` -/

/-- The font table `CHARACTER_SET` of `setup`. -/
def CHARACTER_SET : List Nat :=
  [ 0xF0, 0x90, 0x90, 0x90, 0xF0,
    0x20, 0x60, 0x20, 0x20, 0x70,
    0xF0, 0x10, 0xF0, 0x80, 0xF0,
    0xF0, 0x10, 0xF0, 0x10, 0xF0,
    0x90, 0x90, 0xF0, 0x10, 0x10,
    0xF0, 0x80, 0xF0, 0x10, 0xF0,
    0xF0, 0x80, 0xF0, 0x90, 0xF0,
    0xF0, 0x10, 0x20, 0x40, 0x40,
    0xF0, 0x90, 0xF0, 0x90, 0xF0,
    0xF0, 0x90, 0xF0, 0x10, 0xF0,
    0xF0, 0x90, 0xF0, 0x90, 0x90,
    0xE0, 0x90, 0xE0, 0x90, 0xE0,
    0xF0, 0x80, 0x80, 0x80, 0xF0,
    0xE0, 0x90, 0x90, 0x90, 0xE0,
    0xF0, 0x80, 0xF0, 0x80, 0xF0,
    0xF0, 0x80, 0xF0, 0x80, 0x80 ]

/-- The copy loop of `load_game`: `memory[i + MEMORY_PROGRAM_START] = buffer[i]` for every `i`
below `MEMORY_SIZE - MEMORY_PROGRAM_START`. The argument `buffer` is the content of the local
array `buffer` after the read loop; reading the file is outside the embedding. The array is
not initialised and all of it is copied: a file shorter than the array leaves the bytes after
its end undetermined, so `buffer` is an input and nothing is assumed about it. -/
def load_game (buffer : Nat → Nat) (e : Chip_Context) : Chip_Context :=
  { e with memory := fun k =>
      if MEMORY_PROGRAM_START ≤ k ∧ k < MEMORY_SIZE then buffer (k - MEMORY_PROGRAM_START)
      else e.memory k }

/-- The state built by `setup`: display off, font at the bottom of memory, everything else
zero, program counter at `MEMORY_PROGRAM_START`, then the ROM copied in by `load_game`. -/
def setup (buffer : Nat → Nat) : Machine :=
  { screen := { pixel := fun _ => FALSE }
    emulator := load_game buffer
      { memory := fun i => if i < CHARACTER_SET_SIZE then CHARACTER_SET.getD i 0 else 0
        stack := fun _ => 0
        registers := fun _ => 0
        memory_register := 0
        delay_timer := 0
        sound_timer := 0
        stack_pointer := 0
        program_counter := MEMORY_PROGRAM_START
        controller := 0
        controller_prev := 0 } }

/-- The content of the read buffer for the ROM image that fills it: the file holds `bytes`
followed by zero bytes up to the size of the buffer, `MEMORY_SIZE - MEMORY_PROGRAM_START`, so
that the read loop stores every byte of the buffer. The test programs below are
such zero-padded images. -/
def rom (bytes : List Nat) : Nat → Nat := fun i => bytes.getD i 0

/-! ## The step: `execute_instruction` -/

/-- The instruction fetch: `(uint16_t)(memory[pc] << 8) | (uint16_t)memory[pc + 1]`, stored in
the `uint16_t inst`. -/
def fetch (e : Chip_Context) : Except Undefined Nat :=
  if MEMORY_SIZE ≤ e.program_counter then .error (.memory_index e.program_counter)
  else if MEMORY_SIZE ≤ e.program_counter + 1 then
    .error (.memory_index (e.program_counter + 1))
  else
    .ok ((((e.memory e.program_counter <<< 8) % 65536) ||| e.memory (e.program_counter + 1))
      % 65536)

/-- The value of `(((spr >> (7 - j)) & 0x1) == 1)`, the pixel of column offset `j` in the
sprite row `spr`, for `j` in `0 .. 7`. -/
def sprite_bit (spr j : Nat) : Nat := c_bool ((spr >>> (7 - j)) &&& 0x1 = 1)

/-- The inner loop of `Dxyn`, `for (int j = 0; j < 8; j++)`, from column offset `j` with
`remaining` iterations left, for the sprite row `spr` drawn on display row `row` from column
`x`. The loop state is the register file and the pixel array. -/
def draw_row (spr x row : Nat) :
    Nat → Nat → (Nat → Nat) × (Nat → Nat) → (Nat → Nat) × (Nat → Nat)
  | 0, _, s => s
  | remaining + 1, j, (registers, pixel) =>
    if SCREEN_WIDTH ≤ x + j then (registers, pixel)
    else
      let bit := sprite_bit spr j
      let p := SCREEN_WIDTH * row + (x + j)
      let registers1 := if pixel p ≠ 0 ∧ bit ≠ 0 then write registers 0xF TRUE else registers
      draw_row spr x row remaining (j + 1) (registers1, write pixel p (pixel p ^^^ bit))

/-- The outer loop of `Dxyn`, `for (int i = 0; i < inst_section[3]; i++)`, from sprite row `i`
with `remaining` iterations left. -/
def draw_sprite (memory : Nat → Nat) (memory_register x y : Nat) :
    Nat → Nat → (Nat → Nat) × (Nat → Nat) → Except Undefined ((Nat → Nat) × (Nat → Nat))
  | 0, _, s => .ok s
  | remaining + 1, i, s =>
    if SCREEN_HEIGHT ≤ y + i then .ok s
    else if MEMORY_SIZE ≤ memory_register + i then .error (.memory_index (memory_register + i))
    else
      draw_sprite memory memory_register x y remaining (i + 1)
        (draw_row (memory (memory_register + i)) x (y + i) 8 0 s)

/-- The key scan of `Fx0A`, `for (pressed_key = 0; pressed_key < KEYBOARD_COUNT; pressed_key++)`,
from `pressed_key` with `remaining` iterations left; the result is the value of `pressed_key`
when the loop is left. -/
def scan_keys (controller_prev controller : Nat) : Nat → Nat → Nat
  | 0, pressed_key => pressed_key
  | remaining + 1, pressed_key =>
    if (controller_prev >>> pressed_key) &&& 0x1 ≠ 0 ∧ ¬ ((controller >>> pressed_key) &&& 0x1 ≠ 0)
    then pressed_key
    else scan_keys controller_prev controller remaining (pressed_key + 1)

/-- The loop of `Fx33`, `Fx55`: `for (i = 0; i < count; i++) memory[memory_register + i] =
value i`, the iterations `0 .. count - 1` in this order. -/
def store_loop (value : Nat → Nat) (memory_register : Nat) :
    Nat → (Nat → Nat) → Except Undefined (Nat → Nat)
  | 0, memory => .ok memory
  | i + 1, memory =>
    match store_loop value memory_register i memory with
    | .error u => .error u
    | .ok memory1 =>
      if MEMORY_SIZE ≤ memory_register + i then .error (.memory_index (memory_register + i))
      else .ok (write memory1 (memory_register + i) (value i))

/-- The loop of `Fx65`: `for (i = 0; i < count; i++) registers[i] = memory[memory_register + i]`,
the iterations `0 .. count - 1` in this order. -/
def load_loop (memory : Nat → Nat) (memory_register : Nat) :
    Nat → (Nat → Nat) → Except Undefined (Nat → Nat)
  | 0, registers => .ok registers
  | i + 1, registers =>
    match load_loop memory memory_register i registers with
    | .error u => .error u
    | .ok registers1 =>
      if MEMORY_SIZE ≤ memory_register + i then .error (.memory_index (memory_register + i))
      else .ok (write registers1 i (memory (memory_register + i)))

/-- The `switch` of `execute_instruction` on the fetched word `inst`: the state after the
selected case, with the values of the locals `valid_instruction` and `inst_increment` at the
end of the `switch`. The locals `inst_section0 .. inst_section3` are the entries of the array
`inst_section`. -/
def execute_case (rand : Nat) (inst : Nat) (m : Machine) :
    Except Undefined (Machine × Bool × Nat) :=
  let e := m.emulator
  let inst_section0 := (inst &&& 0xf000) >>> 12
  let inst_section1 := (inst &&& 0x0f00) >>> 8
  let inst_section2 := (inst &&& 0x00f0) >>> 4
  let inst_section3 := inst &&& 0x000f
  match inst_section0 with
  | 0x0 =>
    if inst_section2 = 0xE then
      match inst_section3 with
      | 0x0 =>
        .ok ({ m with
                screen :=
                  { pixel := fun i => if i < PIXEL_COUNT then FALSE else m.screen.pixel i } },
             true, 2)
      | 0xE =>
        let sp := uint8 (Int.tmod ((e.stack_pointer : Int) - 1) (STACK_SIZE : Int))
        if STACK_SIZE ≤ sp then .error (.stack_index sp)
        else
          .ok ({ m with
                  emulator := { e with stack_pointer := sp, program_counter := e.stack sp } },
               true, 2)
      | _ => .ok (m, false, 2)
    else .ok (m, false, 2)
  | 0x1 => .ok ({ m with emulator := { e with program_counter := inst &&& 0xfff } }, true, 0)
  | 0x2 =>
    if STACK_SIZE ≤ e.stack_pointer then .error (.stack_index e.stack_pointer)
    else
      .ok ({ m with
              emulator :=
                { e with
                  stack := write e.stack e.stack_pointer e.program_counter
                  stack_pointer := ((e.stack_pointer + 1) % STACK_SIZE) % 256
                  program_counter := inst &&& 0xfff } },
           true, 0)
  | 0x3 => .ok (m, true, if e.registers inst_section1 = inst &&& 0xff then 4 else 2)
  | 0x4 => .ok (m, true, if e.registers inst_section1 ≠ inst &&& 0xff then 4 else 2)
  | 0x5 =>
    if inst_section3 = 0x0 then
      .ok (m, true, if e.registers inst_section1 = e.registers inst_section2 then 4 else 2)
    else .ok (m, false, 2)
  | 0x6 =>
    .ok ({ m with
            emulator :=
              { e with registers := write e.registers inst_section1 ((inst &&& 0xff) % 256) } },
         true, 2)
  | 0x7 =>
    .ok ({ m with
            emulator :=
              { e with
                registers :=
                  write e.registers inst_section1
                    ((e.registers inst_section1 + (inst &&& 0xff)) % 256) } },
         true, 2)
  | 0x8 =>
    match inst_section3 with
    | 0x0 =>
      .ok ({ m with
              emulator :=
                { e with
                  registers := write e.registers inst_section1 (e.registers inst_section2) } },
           true, 2)
    | 0x1 =>
      .ok ({ m with
              emulator :=
                { e with
                  registers :=
                    write
                      (write e.registers inst_section1
                        ((e.registers inst_section1 ||| e.registers inst_section2) % 256))
                      0xF FALSE } },
           true, 2)
    | 0x2 =>
      .ok ({ m with
              emulator :=
                { e with
                  registers :=
                    write
                      (write e.registers inst_section1
                        ((e.registers inst_section1 &&& e.registers inst_section2) % 256))
                      0xF FALSE } },
           true, 2)
    | 0x3 =>
      .ok ({ m with
              emulator :=
                { e with
                  registers :=
                    write
                      (write e.registers inst_section1
                        ((e.registers inst_section1 ^^^ e.registers inst_section2) % 256))
                      0xF FALSE } },
           true, 2)
    | 0x4 =>
      let temp := e.registers inst_section1 + e.registers inst_section2
      .ok ({ m with
              emulator :=
                { e with
                  registers :=
                    write (write e.registers inst_section1 (temp % 256))
                      0xF (c_bool (temp > 255)) } },
           true, 2)
    | 0x5 =>
      let temp : Int := (e.registers inst_section1 : Int) - (e.registers inst_section2 : Int)
      .ok ({ m with
              emulator :=
                { e with
                  registers :=
                    write (write e.registers inst_section1 (uint8 temp))
                      0xF (c_bool (temp ≥ 0)) } },
           true, 2)
    | 0x6 =>
      let temp := e.registers inst_section1 &&& 0x1
      .ok ({ m with
              emulator :=
                { e with
                  registers :=
                    write (write e.registers inst_section1 ((e.registers inst_section2 >>> 1) % 256))
                      0xF (c_bool (temp > 0)) } },
           true, 2)
    | 0x7 =>
      let temp : Int := (e.registers inst_section2 : Int) - (e.registers inst_section1 : Int)
      .ok ({ m with
              emulator :=
                { e with
                  registers :=
                    write (write e.registers inst_section1 (uint8 temp))
                      0xF (c_bool (temp ≥ 0)) } },
           true, 2)
    | 0xE =>
      let temp := e.registers inst_section1 &&& 0x80
      .ok ({ m with
              emulator :=
                { e with
                  registers :=
                    write (write e.registers inst_section1 ((e.registers inst_section2 <<< 1) % 256))
                      0xF (c_bool (temp > 0)) } },
           true, 2)
    | _ => .ok (m, false, 2)
  | 0x9 =>
    if inst_section3 = 0x0 then
      .ok (m, true, if e.registers inst_section1 ≠ e.registers inst_section2 then 4 else 2)
    else .ok (m, false, 2)
  | 0xA => .ok ({ m with emulator := { e with memory_register := inst &&& 0xfff } }, true, 2)
  | 0xB =>
    .ok ({ m with
            emulator :=
              { e with program_counter := ((inst &&& 0xfff) + e.registers 0) % 65536 } },
         true, 0)
  | 0xC =>
    .ok ({ m with
            emulator :=
              { e with
                registers :=
                  write e.registers inst_section1 ((rand &&& (inst &&& 0xff)) % 256) } },
         true, 2)
  | 0xD =>
    let registers0 := write e.registers 0xF FALSE
    let x := registers0 inst_section1 % SCREEN_WIDTH
    let y := registers0 inst_section2 % SCREEN_HEIGHT
    match draw_sprite e.memory e.memory_register x y inst_section3 0
        (registers0, m.screen.pixel) with
    | .error u => .error u
    | .ok (registers1, pixel1) =>
      .ok ({ emulator := { e with registers := registers1 }, screen := { pixel := pixel1 } },
           true, 2)
  | 0xE =>
    match inst &&& 0xff with
    | 0x9E =>
      if INT_WIDTH ≤ e.registers inst_section1 then
        .error (.shift_count (e.registers inst_section1))
      else
        .ok (m, true,
          if (e.controller >>> e.registers inst_section1) &&& 0x1 ≠ 0 then 4 else 2)
    | 0xA1 =>
      if INT_WIDTH ≤ e.registers inst_section1 then
        .error (.shift_count (e.registers inst_section1))
      else
        .ok (m, true,
          if (e.controller >>> e.registers inst_section1) &&& 0x1 = 0 then 4 else 2)
    | _ => .ok (m, false, 2)
  | 0xF =>
    match inst &&& 0xff with
    | 0x07 =>
      .ok ({ m with
              emulator :=
                { e with registers := write e.registers inst_section1 e.delay_timer } },
           true, 2)
    | 0x0A =>
      if e.controller ≠ 0 then
        let pressed_key := scan_keys e.controller_prev e.controller KEYBOARD_COUNT 0
        .ok ({ m with
                emulator :=
                  { e with registers := write e.registers inst_section1 (pressed_key % 256) } },
             true, 2)
      else .ok (m, true, 0)
    | 0x15 =>
      .ok ({ m with emulator := { e with delay_timer := e.registers inst_section1 } },
           true, 2)
    | 0x18 =>
      .ok ({ m with emulator := { e with sound_timer := e.registers inst_section1 } },
           true, 2)
    | 0x1E =>
      .ok ({ m with
              emulator :=
                { e with
                  memory_register :=
                    (e.memory_register + e.registers inst_section1) % 65536 } },
           true, 2)
    | 0x29 =>
      .ok ({ m with
              emulator :=
                { e with
                  memory_register := ((e.registers inst_section1 % 0x10) * 5) % 65536 } },
           true, 2)
    | 0x33 =>
      let bcd_values : Nat → Nat := fun i =>
        if i = 0 then e.registers inst_section1 / 100
        else if i = 1 then (e.registers inst_section1 / 10) % 10
        else e.registers inst_section1 % 10
      match store_loop (fun i => bcd_values i % 256) e.memory_register 3 e.memory with
      | .error u => .error u
      | .ok memory1 => .ok ({ m with emulator := { e with memory := memory1 } }, true, 2)
    | 0x55 =>
      match store_loop e.registers e.memory_register (inst_section1 + 1) e.memory with
      | .error u => .error u
      | .ok memory1 =>
        .ok ({ m with
                emulator :=
                  { e with
                    memory := memory1
                    memory_register :=
                      (e.memory_register + (inst_section1 + 1)) % 65536 } },
             true, 2)
    | 0x65 =>
      match load_loop e.memory e.memory_register (inst_section1 + 1) e.registers with
      | .error u => .error u
      | .ok registers1 =>
        .ok ({ m with
                emulator :=
                  { e with
                    registers := registers1
                    memory_register :=
                      (e.memory_register + (inst_section1 + 1)) % 65536 } },
             true, 2)
    | _ => .ok (m, false, 2)
  | _ => .ok (m, false, 2)

/-- One call of `execute_instruction`: fetch, the `switch`, then
`program_counter += inst_increment`. The result is the returned `valid_instruction` and the
state after the call. -/
def execute_instruction (rand : Nat) (m : Machine) : Except Undefined (Bool × Machine) :=
  match fetch m.emulator with
  | .error u => .error u
  | .ok inst =>
    match execute_case rand inst m with
    | .error u => .error u
    | .ok (m1, valid_instruction, inst_increment) =>
      .ok (valid_instruction,
           { m1 with emulator :=
              { m1.emulator with
                program_counter := (m1.emulator.program_counter + inst_increment) % 65536 } })

/-- Consecutive calls of `execute_instruction`, `n` of them, as the main loop makes them (it
ignores the returned value); `rand` is what every call of `rand()` returns. -/
def run (rand : Nat) : Nat → Machine → Except Undefined Machine
  | 0, m => .ok m
  | n + 1, m =>
    match execute_instruction rand m with
    | .error u => .error u
    | .ok (_, m1) => run rand n m1

/-! ## Key events: `get_input` -/

/-- The case `SDL_KEYDOWN` of `get_input` for a key whose latch bit is `mask`:
`controller_prev = controller`, then `controller |= mask`. -/
def key_down (mask : Nat) (e : Chip_Context) : Chip_Context :=
  { e with controller_prev := e.controller, controller := (e.controller ||| mask) % 65536 }

/-- The case `SDL_KEYUP` of `get_input` for a key whose latch bit is `mask`:
`controller_prev = controller`, then `controller &= ~mask`; in the 16 bits of `controller`
the complement `~mask` is `0xFFFF ^ mask`. -/
def key_up (mask : Nat) (e : Chip_Context) : Chip_Context :=
  { e with controller_prev := e.controller, controller := e.controller &&& (0xFFFF ^^^ mask) }

/-- Key `k` shows a release: its bit is set in `controller_prev` and clear in `controller`. -/
def key_released (e : Chip_Context) (k : Nat) : Prop :=
  (e.controller_prev >>> k) &&& 1 = 1 ∧ (e.controller >>> k) &&& 1 = 0

instance (e : Chip_Context) (k : Nat) : Decidable (key_released e k) :=
  inferInstanceAs
    (Decidable ((e.controller_prev >>> k) &&& 1 = 1 ∧ (e.controller >>> k) &&& 1 = 0))

/-! ## The pixels a sprite covers -/

/-- The pixel index `k` is in display row `row`, at one of the columns `x + j` for
`j0 ≤ j < j0 + count`. -/
def in_row (x row j0 count k : Nat) : Prop :=
  k / SCREEN_WIDTH = row ∧ x + j0 ≤ k % SCREEN_WIDTH ∧ k % SCREEN_WIDTH < x + j0 + count

instance (x row j0 count k : Nat) : Decidable (in_row x row j0 count k) :=
  inferInstanceAs
    (Decidable
      (k / SCREEN_WIDTH = row ∧ x + j0 ≤ k % SCREEN_WIDTH ∧ k % SCREEN_WIDTH < x + j0 + count))

/-- The pixel index `k` is on the display, in one of the rows `y + i` for `i0 ≤ i < i0 + count`
and at one of the columns `x .. x + 7`. -/
def in_sprite (x y i0 count k : Nat) : Prop :=
  y + i0 ≤ k / SCREEN_WIDTH ∧ k / SCREEN_WIDTH < y + i0 + count ∧
    k / SCREEN_WIDTH < SCREEN_HEIGHT ∧ x ≤ k % SCREEN_WIDTH ∧ k % SCREEN_WIDTH < x + 8

instance (x y i0 count k : Nat) : Decidable (in_sprite x y i0 count k) :=
  inferInstanceAs
    (Decidable
      (y + i0 ≤ k / SCREEN_WIDTH ∧ k / SCREEN_WIDTH < y + i0 + count ∧
        k / SCREEN_WIDTH < SCREEN_HEIGHT ∧ x ≤ k % SCREEN_WIDTH ∧ k % SCREEN_WIDTH < x + 8))

/-- The sprite pixel that falls on the pixel index `k` when the sprite stored from
`memory_register` is drawn from column `x` and row `y`. -/
def sprite_value (memory : Nat → Nat) (memory_register x y k : Nat) : Nat :=
  sprite_bit (memory (memory_register + (k / SCREEN_WIDTH - y))) (k % SCREEN_WIDTH - x)

/-- The column `x` of `Dxyn`: `registers[inst_section[1]] % SCREEN_WIDTH`, read after
`registers[0xF] = FALSE`. -/
def sprite_column (registers : Nat → Nat) (x : Nat) : Nat :=
  write registers 0xF FALSE x % SCREEN_WIDTH

/-- The row `y` of `Dxyn`: `registers[inst_section[2]] % SCREEN_HEIGHT`, read after
`registers[0xF] = FALSE`. -/
def sprite_row (registers : Nat → Nat) (y : Nat) : Nat :=
  write registers 0xF FALSE y % SCREEN_HEIGHT

/-! ## The words the decoder rejects -/

/-- The instruction words for which the `switch` of `execute_instruction` reaches a branch
that sets `valid_instruction = FALSE`, by the nibbles and the low byte of the word. -/
def rejected (inst : Nat) : Prop :=
  (inst / 4096 % 16 = 0x0 ∧
      (inst / 16 % 16 ≠ 0xE ∨ (inst % 16 ≠ 0x0 ∧ inst % 16 ≠ 0xE))) ∨
    (inst / 4096 % 16 = 0x5 ∧ inst % 16 ≠ 0x0) ∨
    (inst / 4096 % 16 = 0x8 ∧ 0x8 ≤ inst % 16 ∧ inst % 16 ≠ 0xE) ∨
    (inst / 4096 % 16 = 0x9 ∧ inst % 16 ≠ 0x0) ∨
    (inst / 4096 % 16 = 0xE ∧ inst % 256 ≠ 0x9E ∧ inst % 256 ≠ 0xA1) ∨
    (inst / 4096 % 16 = 0xF ∧ inst % 256 ≠ 0x07 ∧ inst % 256 ≠ 0x0A ∧ inst % 256 ≠ 0x15 ∧
      inst % 256 ≠ 0x18 ∧ inst % 256 ≠ 0x1E ∧ inst % 256 ≠ 0x29 ∧ inst % 256 ≠ 0x33 ∧
      inst % 256 ≠ 0x55 ∧ inst % 256 ≠ 0x65)

instance (inst : Nat) : Decidable (rejected inst) := by
  unfold rejected
  exact inferInstance

/-! ## Instruction words and test programs -/

/-- The instruction word with the four nibbles `n0 n1 n2 n3`, most significant first. -/
def opcode (n0 n1 n2 n3 : Nat) : Nat := 0x1000 * n0 + 0x100 * n1 + 0x10 * n2 + n3

/-- The scenario program `6005 6103 8014`: `V0 = 5`, `V1 = 3`, `V0 += V1`. -/
def add_program : List Nat := [0x60, 0x05, 0x61, 0x03, 0x80, 0x14]

/-- The scenario program `600A 61FB 8015`: `V0 = 10`, `V1 = 251`, `V0 -= V1`. -/
def sub_program : List Nat := [0x60, 0x0A, 0x61, 0xFB, 0x80, 0x15]

/-- The state an execution ends in, and `m` when the execution has no defined behaviour. -/
def final_state (r : Except Undefined Machine) (m : Machine) : Machine :=
  match r with
  | .ok m1 => m1
  | .error _ => m

/-- The scenario program `6005 6103 8017`: `V0 = 5`, `V1 = 3`, `V0 = V1 - V0`. -/
def subn_program : List Nat := [0x60, 0x05, 0x61, 0x03, 0x80, 0x17]

/-- The program `6000 6101 8016`: `V0 = 0`, `V1 = 1`, then the right shift of `V1` into
`V0`. -/
def shift_right_program : List Nat := [0x60, 0x00, 0x61, 0x01, 0x80, 0x16]

/-- The program `6000 6180 801E`: `V0 = 0`, `V1 = 0x80`, then the left shift of `V1` into
`V0`. -/
def shift_left_program : List Nat := [0x60, 0x00, 0x61, 0x80, 0x80, 0x1E]

/-- The program `00EE`: a return as the first instruction. -/
def return_program : List Nat := [0x00, 0xEE]

/-- Sixteen nested calls, each to the next instruction (`2202` at `0x200`, `2204` at `0x202`,
up to `2220` at `0x21E`), then `00EE` at `0x220`. -/
def call_chain_program : List Nat :=
  [ 0x22, 0x02, 0x22, 0x04, 0x22, 0x06, 0x22, 0x08, 0x22, 0x0A, 0x22, 0x0C, 0x22, 0x0E,
    0x22, 0x10, 0x22, 0x12, 0x22, 0x14, 0x22, 0x16, 0x22, 0x18, 0x22, 0x1A, 0x22, 0x1C,
    0x22, 0x1E, 0x22, 0x20, 0x00, 0xEE ]

/-- The program `D001 01E0`: draw the top row of the glyph `0` at the origin, then the word
`01E0`. -/
def draw_then_01E0_program : List Nat := [0xD0, 0x01, 0x01, 0xE0]

/-- The state for the program `F00A` after key 1 (latch bit `0x0002`) went down and up
again: `controller_prev = 0x0002`, `controller = 0`. -/
def key_1_released_state : Machine :=
  { setup (rom [0xF0, 0x0A]) with
    emulator := key_up 0x0002 (key_down 0x0002 (setup (rom [0xF0, 0x0A])).emulator) }

/-- The state for the program `F00A` after keys 1 and 2 (latch bits `0x0002`, `0x0004`) went
down and key 1 went up again: `controller_prev = 0x0006`, `controller = 0x0004`. -/
def key_1_released_key_2_held_state : Machine :=
  { setup (rom [0xF0, 0x0A]) with
    emulator :=
      key_up 0x0002 (key_down 0x0004 (key_down 0x0002 (setup (rom [0xF0, 0x0A])).emulator)) }

/-- The program `6007 6109 A300 F155 6000 6100 A300 F165`: `V0 = 7`, `V1 = 9`, `I = 0x300`,
store `V0..V1`, `V0 = 0`, `V1 = 0`, `I = 0x300`, load `V0..V1`. -/
def store_load_program : List Nat :=
  [ 0x60, 0x07, 0x61, 0x09, 0xA3, 0x00, 0xF1, 0x55,
    0x60, 0x00, 0x61, 0x00, 0xA3, 0x00, 0xF1, 0x65 ]

/-- The program `D005 D005`: draw the glyph `0` (five rows from address 0) at the origin,
twice. -/
def draw_twice_program : List Nat := [0xD0, 0x05, 0xD0, 0x05]

/-- The program `A300 D001 D001`: `I = 0x300`, where the memory holds zero, then draw the
one-row sprite stored there at the origin, twice. -/
def draw_blank_twice_program : List Nat := [0xA3, 0x00, 0xD0, 0x01, 0xD0, 0x01]

/-- The state for the program `F00A` after key 1 (latch bit `0x0002`) went down:
`controller_prev = 0`, `controller = 0x0002`. -/
def key_1_held_state : Machine :=
  { setup (rom [0xF0, 0x0A]) with
    emulator := key_down 0x0002 (setup (rom [0xF0, 0x0A])).emulator }

/-- The program `6F05 6003 8F04`: `VF = 5`, `V0 = 3`, `VF += V0`. -/
def flag_add_program : List Nat := [0x6F, 0x05, 0x60, 0x03, 0x8F, 0x04]

/-- The program `600C 610A 8011`: `V0 = 0x0C`, `V1 = 0x0A`, `V0 |= V1`. -/
def or_program : List Nat := [0x60, 0x0C, 0x61, 0x0A, 0x80, 0x11]

/-- The program `60EA A300 F033`: `V0 = 234`, `I = 0x300`, store the decimal digits of
`V0`. -/
def bcd_program : List Nat := [0x60, 0xEA, 0xA3, 0x00, 0xF0, 0x33]

/-- The program `2204 0000 00EE`: a call to `0x204`, where `00EE` is stored. -/
def call_return_program : List Nat := [0x22, 0x04, 0x00, 0x00, 0x00, 0xEE]

/-- The program `1FFF`: a jump to the last byte of the memory. -/
def jump_to_end_program : List Nat := [0x1F, 0xFF]

/-- The program `D001 0FE0`: draw the top row of the glyph `0` at the origin, then the word
`0FE0`. -/
def draw_then_0FE0_program : List Nat := [0xD0, 0x01, 0x0F, 0xE0]

/-! ## Writes below the end of the font -/

/-- The word `inst` is an `Fx33` or an `Fx55` and the index register is below
`CHARACTER_SET_SIZE`: the step stores at `memory[memory_register]`, inside the font. -/
def writes_font (e : Chip_Context) (inst : Nat) : Prop :=
  inst / 4096 % 16 = 0xF ∧ (inst % 256 = 0x33 ∨ inst % 256 = 0x55) ∧
    e.memory_register < CHARACTER_SET_SIZE

instance (e : Chip_Context) (inst : Nat) : Decidable (writes_font e inst) :=
  inferInstanceAs
    (Decidable
      (inst / 4096 % 16 = 0xF ∧ (inst % 256 = 0x33 ∨ inst % 256 = 0x55) ∧
        e.memory_register < CHARACTER_SET_SIZE))

/-- The states reached from the state `setup` builds for the read buffer `buffer` by steps
with a defined result, none of them an `Fx33` or `Fx55` with the index register below
`CHARACTER_SET_SIZE`. -/
inductive font_safe_reachable (buffer : Nat → Nat) : Machine → Prop where
  | start : font_safe_reachable buffer (setup buffer)
  | step (rand : Nat) (m : Machine) (inst : Nat) (v : Bool) (m1 : Machine) :
      font_safe_reachable buffer m → fetch m.emulator = .ok inst →
      ¬ writes_font m.emulator inst → execute_instruction rand m = .ok (v, m1) →
      font_safe_reachable buffer m1

/-- The program `6012 A000 F055`: `V0 = 0x12`, `I = 0`, store `V0` at `memory[I]`. -/
def font_overwrite_program : List Nat := [0x60, 0x12, 0xA0, 0x00, 0xF0, 0x55]

/-! ## The set sprite bits on the display -/

/-- The pixel index `k` is the place of a set sprite bit that falls on the display, for the
sprite of `n` rows stored from `memory_register` and drawn from column `x` and row `y`: for
some sprite row `i < n` and column offset `j < 8`, the column `x + j` is below `SCREEN_WIDTH`,
the row `y + i` is below `SCREEN_HEIGHT`, `k` is the row-major index of that row and column,
and bit `7 - j` of the sprite byte `memory[memory_register + i]` is `1`. -/
def sprite_sets (memory : Nat → Nat) (memory_register x y n k : Nat) : Prop :=
  ∃ i, i < n ∧ ∃ j, j < 8 ∧ x + j < SCREEN_WIDTH ∧ y + i < SCREEN_HEIGHT ∧
    k = SCREEN_WIDTH * (y + i) + (x + j) ∧
    (memory (memory_register + i) >>> (7 - j)) &&& 0x1 = 1

instance (memory : Nat → Nat) (memory_register x y n k : Nat) :
    Decidable (sprite_sets memory memory_register x y n k) :=
  inferInstanceAs
    (Decidable
      (∃ i, i < n ∧ ∃ j, j < 8 ∧ x + j < SCREEN_WIDTH ∧ y + i < SCREEN_HEIGHT ∧
        k = SCREEN_WIDTH * (y + i) + (x + j) ∧
        (memory (memory_register + i) >>> (7 - j)) &&& 0x1 = 1))

/-- The program `6120 D011`: `V1 = 32`, then draw the top row of the glyph `0` at column `V0`
and row `V1`. -/
def draw_row_32_program : List Nat := [0x61, 0x20, 0xD0, 0x11]

/-- The program `6F01 DF01`: `VF = 1`, then draw the top row of the glyph `0` at column `VF`
and row `V0`. -/
def draw_column_VF_program : List Nat := [0x6F, 0x01, 0xDF, 0x01]

/-- The program `6002 6101 D015`: `V0 = 2`, `V1 = 1`, then draw the glyph `0` at column `V0`
and row `V1`. -/
def draw_glyph_program : List Nat := [0x60, 0x02, 0x61, 0x01, 0xD0, 0x15]

/-- The program `D005 6004 D005`: draw the glyph `0` at the origin, set `V0 = 4`, and draw the
glyph again at column `4` of row `4`, next to the first. -/
def draw_apart_program : List Nat := [0xD0, 0x05, 0x60, 0x04, 0xD0, 0x05]

/-- The program `00E0 D005`: clear the display, then draw the glyph `0` at the origin. -/
def clear_draw_program : List Nat := [0x00, 0xE0, 0xD0, 0x05]

/-- Every pixel of the display is `0` (off) or `1` (on): the values the program stores in
`pixel`. -/
def boolean_display (s : Screen_Context) : Prop :=
  ∀ k, k < PIXEL_COUNT → s.pixel k = 0 ∨ s.pixel k = 1

/-- The memory, the registers and the delay timer hold bytes, as their type `uint8_t`
says. -/
def holds_bytes (e : Chip_Context) : Prop :=
  (∀ a, e.memory a < 256) ∧ (∀ r, e.registers r < 256) ∧ e.delay_timer < 256

/-- The program `6F01 00E0 DF01`: `VF = 1`, clear the display, then draw the top row of the
glyph `0` at column `VF` and row `V0`. -/
def clear_draw_VF_program : List Nat := [0x6F, 0x01, 0x00, 0xE0, 0xDF, 0x01]

/-! ## Decoding -/

theorem shiftRight_and (a b i : Nat) : (a &&& b) >>> i = (a >>> i) &&& (b >>> i) := by
  apply Nat.eq_of_testBit_eq
  intro j
  simp [Nat.testBit_shiftRight, Nat.testBit_and]

theorem section0_eq (inst : Nat) : (inst &&& 0xf000) >>> 12 = inst / 4096 % 16 := by
  rw [shiftRight_and, Nat.shiftRight_eq_div_pow, Nat.shiftRight_eq_div_pow]
  exact Nat.and_pow_two_sub_one_eq_mod _ 4

theorem section1_eq (inst : Nat) : (inst &&& 0x0f00) >>> 8 = inst / 256 % 16 := by
  rw [shiftRight_and, Nat.shiftRight_eq_div_pow, Nat.shiftRight_eq_div_pow]
  exact Nat.and_pow_two_sub_one_eq_mod _ 4

theorem section2_eq (inst : Nat) : (inst &&& 0x00f0) >>> 4 = inst / 16 % 16 := by
  rw [shiftRight_and, Nat.shiftRight_eq_div_pow, Nat.shiftRight_eq_div_pow]
  exact Nat.and_pow_two_sub_one_eq_mod _ 4

theorem section3_eq (inst : Nat) : inst &&& 0x000f = inst % 16 :=
  Nat.and_pow_two_sub_one_eq_mod _ 4

theorem low_byte_eq (inst : Nat) : inst &&& 0xff = inst % 256 :=
  Nat.and_pow_two_sub_one_eq_mod _ 8

theorem address_eq (inst : Nat) : inst &&& 0xfff = inst % 4096 :=
  Nat.and_pow_two_sub_one_eq_mod _ 12

theorem opcode_section0 {n0 n1 n2 n3 : Nat} (h0 : n0 < 16) (h1 : n1 < 16) (h2 : n2 < 16)
    (h3 : n3 < 16) : opcode n0 n1 n2 n3 / 4096 % 16 = n0 := by
  unfold opcode; omega

theorem opcode_section1 {n0 n1 n2 n3 : Nat} (h1 : n1 < 16) (h2 : n2 < 16) (h3 : n3 < 16) :
    opcode n0 n1 n2 n3 / 256 % 16 = n1 := by
  unfold opcode; omega

theorem opcode_section2 {n0 n1 n2 n3 : Nat} (h2 : n2 < 16) (h3 : n3 < 16) :
    opcode n0 n1 n2 n3 / 16 % 16 = n2 := by
  unfold opcode; omega

theorem opcode_section3 {n0 n1 n2 n3 : Nat} (h3 : n3 < 16) :
    opcode n0 n1 n2 n3 % 16 = n3 := by
  unfold opcode; omega

theorem opcode_low_byte {n0 n1 n2 n3 : Nat} (h2 : n2 < 16) (h3 : n3 < 16) :
    opcode n0 n1 n2 n3 % 256 = 16 * n2 + n3 := by
  unfold opcode; omega

theorem opcode_address {n0 n1 n2 n3 : Nat} (h1 : n1 < 16) (h2 : n2 < 16) (h3 : n3 < 16) :
    opcode n0 n1 n2 n3 % 4096 = 256 * n1 + 16 * n2 + n3 := by
  unfold opcode; omega

/-- A step whose fetch is defined is the `switch` on the fetched word followed by the update
of the program counter. -/
theorem execute_instruction_of_fetch (rand : Nat) (m : Machine) (inst : Nat)
    (h : fetch m.emulator = .ok inst) :
    execute_instruction rand m =
      match execute_case rand inst m with
      | .error u => .error u
      | .ok (m1, valid_instruction, inst_increment) =>
        .ok (valid_instruction,
             { m1 with emulator :=
                { m1.emulator with
                  program_counter :=
                    (m1.emulator.program_counter + inst_increment) % 65536 } }) := by
  simp only [execute_instruction, h]

/-- A defined fetch reads inside the memory. -/
theorem fetch_in_bounds {e : Chip_Context} {inst : Nat} (h : fetch e = .ok inst) :
    e.program_counter + 1 < MEMORY_SIZE := by
  unfold fetch at h
  split at h
  · cases h
  · split at h
    · cases h
    · omega

/-- The fetch reads the memory and the program counter only. -/
theorem fetch_congr {e1 e2 : Chip_Context} (hmem : e1.memory = e2.memory)
    (hpc : e1.program_counter = e2.program_counter) : fetch e1 = fetch e2 := by
  simp only [fetch, hmem, hpc]

/-! ## Arithmetic instructions -/

/-- C1: for every state and register indices `x`, `y`, a step on `8xy4` sets `VF` to `1` if
`Vx + Vy > 255` (values before the step) and to `0` otherwise, and when `x` is not `F` leaves
`Vx` equal to `(Vx + Vy) mod 256`. -/
theorem execute_8xy4 (rand : Nat) (m : Machine) (x y : Nat) (hx : x < 16) (hy : y < 16)
    (hfetch : fetch m.emulator = .ok (opcode 8 x y 4)) :
    ∃ m1, execute_instruction rand m = .ok (true, m1) ∧
      m1.emulator.registers 0xF =
        (if m.emulator.registers x + m.emulator.registers y > 255 then 1 else 0) ∧
      (x ≠ 0xF → m1.emulator.registers x =
        (m.emulator.registers x + m.emulator.registers y) % 256) := by
  rw [execute_instruction_of_fetch rand m _ hfetch]
  simp only [execute_case, section0_eq, section1_eq, section2_eq, section3_eq,
    opcode_section0 (by decide : 8 < 16) hx hy (by decide : 4 < 16),
    opcode_section1 hx hy (by decide : 4 < 16), opcode_section2 hy (by decide : 4 < 16),
    opcode_section3 (by decide : 4 < 16)]
  refine ⟨_, rfl, ?_, ?_⟩
  · simp [write, c_bool]
  · intro hxF
    simp [write, hxF, Ne.symm hxF]

/-- The scenario of C1: from the state `setup` builds for the program `6005 6103 8014`, two
steps lead to a state where `8014` is fetched, and the third step ends with `V0 = 8` and
`VF = 0`. -/
theorem execute_8xy4_scenario :
    ∃ m2 m3, run 0 2 (setup (rom add_program)) = .ok m2 ∧
      fetch m2.emulator = .ok (opcode 8 0 1 4) ∧
      execute_instruction 0 m2 = .ok (true, m3) ∧
      m3.emulator.registers 0 = 8 ∧ m3.emulator.registers 0xF = 0 := by
  obtain ⟨m3, hstep, hflag, hsum⟩ :=
    execute_8xy4 0 (final_state (run 0 2 (setup (rom add_program))) (setup (rom add_program)))
      0 1 (by decide) (by decide) rfl
  exact ⟨_, m3, rfl, rfl, hstep, (hsum (by decide)).trans rfl, hflag.trans rfl⟩

/-- C2: for every state and register indices `x`, `y`, a step on `8xy5` sets `VF` to `1` if
`Vx >= Vy` (values before the step) and to `0` otherwise, and when `x` is not `F` leaves `Vx`
equal to `(Vx - Vy) mod 256`. -/
theorem execute_8xy5 (rand : Nat) (m : Machine) (x y : Nat) (hx : x < 16) (hy : y < 16)
    (hfetch : fetch m.emulator = .ok (opcode 8 x y 5)) :
    ∃ m1, execute_instruction rand m = .ok (true, m1) ∧
      m1.emulator.registers 0xF =
        (if m.emulator.registers x ≥ m.emulator.registers y then 1 else 0) ∧
      (x ≠ 0xF → (m1.emulator.registers x : Int) =
        ((m.emulator.registers x : Int) - (m.emulator.registers y : Int)) % 256) := by
  rw [execute_instruction_of_fetch rand m _ hfetch]
  simp only [execute_case, section0_eq, section1_eq, section2_eq, section3_eq,
    opcode_section0 (by decide : 8 < 16) hx hy (by decide : 5 < 16),
    opcode_section1 hx hy (by decide : 5 < 16), opcode_section2 hy (by decide : 5 < 16),
    opcode_section3 (by decide : 5 < 16)]
  refine ⟨_, rfl, ?_, ?_⟩
  · simp [write, c_bool]
  · intro hxF
    have hnonneg : (0 : Int) ≤
        ((m.emulator.registers x : Int) - (m.emulator.registers y : Int)) % 256 :=
      Int.emod_nonneg _ (by decide)
    simp [write, hxF, uint8, Int.toNat_of_nonneg hnonneg]

/-- The scenario of C2: from the state `setup` builds for the program `600A 61FB 8015`, two
steps lead to a state where `8015` is fetched, and the third step ends with `V0 = 15` and
`VF = 0`. -/
theorem execute_8xy5_scenario :
    ∃ m2 m3, run 0 2 (setup (rom sub_program)) = .ok m2 ∧
      fetch m2.emulator = .ok (opcode 8 0 1 5) ∧
      execute_instruction 0 m2 = .ok (true, m3) ∧
      m3.emulator.registers 0 = 15 ∧ m3.emulator.registers 0xF = 0 := by
  obtain ⟨m3, hstep, hflag, hdiff⟩ :=
    execute_8xy5 0 (final_state (run 0 2 (setup (rom sub_program))) (setup (rom sub_program)))
      0 1 (by decide) (by decide) rfl
  exact ⟨_, m3, rfl, rfl, hstep, Int.ofNat.inj ((hdiff (by decide)).trans rfl),
    hflag.trans rfl⟩

/-- C4: for every state and register indices `x`, `y`, a step on `8xy7` sets `VF` to `1` if
`Vy >= Vx` (values before the step) and to `0` otherwise, and when `x` is not `F` leaves `Vx`
equal to `(Vy - Vx) mod 256`. -/
theorem execute_8xy7 (rand : Nat) (m : Machine) (x y : Nat) (hx : x < 16) (hy : y < 16)
    (hfetch : fetch m.emulator = .ok (opcode 8 x y 7)) :
    ∃ m1, execute_instruction rand m = .ok (true, m1) ∧
      m1.emulator.registers 0xF =
        (if m.emulator.registers y ≥ m.emulator.registers x then 1 else 0) ∧
      (x ≠ 0xF → (m1.emulator.registers x : Int) =
        ((m.emulator.registers y : Int) - (m.emulator.registers x : Int)) % 256) := by
  rw [execute_instruction_of_fetch rand m _ hfetch]
  simp only [execute_case, section0_eq, section1_eq, section2_eq, section3_eq,
    opcode_section0 (by decide : 8 < 16) hx hy (by decide : 7 < 16),
    opcode_section1 hx hy (by decide : 7 < 16), opcode_section2 hy (by decide : 7 < 16),
    opcode_section3 (by decide : 7 < 16)]
  refine ⟨_, rfl, ?_, ?_⟩
  · simp [write, c_bool]
  · intro hxF
    have hnonneg : (0 : Int) ≤
        ((m.emulator.registers y : Int) - (m.emulator.registers x : Int)) % 256 :=
      Int.emod_nonneg _ (by decide)
    simp [write, hxF, uint8, Int.toNat_of_nonneg hnonneg]

/-- The witness of C4: from the state `setup` builds for the program `6005 6103 8017`, two
steps lead to a state where `8017` is fetched, and the third step ends with `V0 = 254`
(`3 - 5` modulo 256) and `VF = 0`. -/
theorem execute_8xy7_scenario :
    ∃ m2 m3, run 0 2 (setup (rom subn_program)) = .ok m2 ∧
      fetch m2.emulator = .ok (opcode 8 0 1 7) ∧
      execute_instruction 0 m2 = .ok (true, m3) ∧
      m3.emulator.registers 0 = 254 ∧ m3.emulator.registers 0xF = 0 := by
  obtain ⟨m3, hstep, hflag, hdiff⟩ :=
    execute_8xy7 0 (final_state (run 0 2 (setup (rom subn_program))) (setup (rom subn_program)))
      0 1 (by decide) (by decide) rfl
  exact ⟨_, m3, rfl, rfl, hstep, Int.ofNat.inj ((hdiff (by decide)).trans rfl),
    hflag.trans rfl⟩

/-- C3, the code at a failing input: after `6000 6101` (`V0 = 0`, `V1 = 1`) the step on `8016`
stores `V1 >> 1 = 0` in `V0` but sets `VF` to `0`, the low bit of `V0`, although the bit
shifted out of `V1` is `1`; after `6000 6180` (`V0 = 0`, `V1 = 0x80`) the step on `801E`
stores `(V1 << 1) mod 256 = 0` in `V0` but sets `VF` to `0`, bit 7 of `V0`, although bit 7
of `V1` is `1`. -/
theorem execute_shift_flag_from_Vx :
    (∃ m2 m3, run 0 2 (setup (rom shift_right_program)) = .ok m2 ∧
      fetch m2.emulator = .ok (opcode 8 0 1 6) ∧
      m2.emulator.registers 0 = 0 ∧ m2.emulator.registers 1 = 1 ∧
      execute_instruction 0 m2 = .ok (true, m3) ∧
      m3.emulator.registers 0 = m2.emulator.registers 1 >>> 1 ∧
      m3.emulator.registers 0xF = 0 ∧ m2.emulator.registers 1 &&& 1 = 1) ∧
    (∃ m2 m3, run 0 2 (setup (rom shift_left_program)) = .ok m2 ∧
      fetch m2.emulator = .ok (opcode 8 0 1 0xE) ∧
      m2.emulator.registers 0 = 0 ∧ m2.emulator.registers 1 = 0x80 ∧
      execute_instruction 0 m2 = .ok (true, m3) ∧
      m3.emulator.registers 0 = (m2.emulator.registers 1 <<< 1) % 256 ∧
      m3.emulator.registers 0xF = 0 ∧ (m2.emulator.registers 1 >>> 7) &&& 1 = 1) := by
  refine ⟨⟨final_state (run 0 2 (setup (rom shift_right_program))) (setup (rom [])),
      final_state (run 0 3 (setup (rom shift_right_program))) (setup (rom [])), ?_⟩,
    ⟨final_state (run 0 2 (setup (rom shift_left_program))) (setup (rom [])),
      final_state (run 0 3 (setup (rom shift_left_program))) (setup (rom [])), ?_⟩⟩
  · exact ⟨rfl, rfl, rfl, rfl, rfl, rfl, rfl, rfl⟩
  · exact ⟨rfl, rfl, rfl, rfl, rfl, rfl, rfl, rfl⟩

/-- What the code does on `8xy6`: `Vx` receives `Vy >> 1` (when `x` is not `F`), and `VF`
receives the low bit of `Vx`, not of `Vy`. -/
theorem execute_8xy6 (rand : Nat) (m : Machine) (x y : Nat) (hx : x < 16) (hy : y < 16)
    (hfetch : fetch m.emulator = .ok (opcode 8 x y 6)) :
    ∃ m1, execute_instruction rand m = .ok (true, m1) ∧
      m1.emulator.registers 0xF = m.emulator.registers x % 2 ∧
      (x ≠ 0xF → m1.emulator.registers x = (m.emulator.registers y >>> 1) % 256) := by
  rw [execute_instruction_of_fetch rand m _ hfetch]
  simp only [execute_case, section0_eq, section1_eq, section2_eq, section3_eq,
    opcode_section0 (by decide : 8 < 16) hx hy (by decide : 6 < 16),
    opcode_section1 hx hy (by decide : 6 < 16), opcode_section2 hy (by decide : 6 < 16),
    opcode_section3 (by decide : 6 < 16)]
  refine ⟨_, rfl, ?_, ?_⟩
  · simp only [write, if_pos, c_bool, Nat.and_one_is_mod]
    split <;> omega
  · intro hxF
    simp [write, hxF]

/-- What the code does on `8xyE`: `Vx` receives `(Vy << 1) mod 256` (when `x` is not `F`),
and `VF` is `1` exactly when `Vx & 0x80` is not zero: the flag is read from `Vx`, not from
`Vy`. -/
theorem execute_8xyE (rand : Nat) (m : Machine) (x y : Nat) (hx : x < 16) (hy : y < 16)
    (hfetch : fetch m.emulator = .ok (opcode 8 x y 0xE)) :
    ∃ m1, execute_instruction rand m = .ok (true, m1) ∧
      m1.emulator.registers 0xF = (if m.emulator.registers x &&& 0x80 > 0 then 1 else 0) ∧
      (x ≠ 0xF → m1.emulator.registers x = (m.emulator.registers y <<< 1) % 256) := by
  rw [execute_instruction_of_fetch rand m _ hfetch]
  simp only [execute_case, section0_eq, section1_eq, section2_eq, section3_eq,
    opcode_section0 (by decide : 8 < 16) hx hy (by decide : 0xE < 16),
    opcode_section1 hx hy (by decide : 0xE < 16), opcode_section2 hy (by decide : 0xE < 16),
    opcode_section3 (by decide : 0xE < 16)]
  refine ⟨_, rfl, ?_, ?_⟩
  · simp [write, c_bool]
  · intro hxF
    simp [write, hxF]

/-! ## Call and return -/

/-- Below stack pointer `15` the call and return do round-trip: when the word at the program
counter is `2nnn`, the word at `nnn` is `00EE` and the stack pointer is at most `14`, the two
steps are defined and end with the program counter two past the call and the stack pointer
as before the call. -/
theorem call_return_round_trip (rand1 rand2 : Nat) (m : Machine) (a b c : Nat) (ha : a < 16)
    (hb : b < 16) (hc : c < 16) (hsp : m.emulator.stack_pointer < 15)
    (hcall : fetch m.emulator = .ok (opcode 2 a b c))
    (hret : fetch { m.emulator with program_counter := 256 * a + 16 * b + c } =
      .ok (opcode 0 0 0xE 0xE)) :
    ∃ m1 m2, execute_instruction rand1 m = .ok (true, m1) ∧
      execute_instruction rand2 m1 = .ok (true, m2) ∧
      m2.emulator.program_counter = m.emulator.program_counter + 2 ∧
      m2.emulator.stack_pointer = m.emulator.stack_pointer := by
  have hpc := fetch_in_bounds hcall
  simp only [MEMORY_SIZE] at hpc
  have hjump : (256 * a + 16 * b + c + 0) % 65536 = 256 * a + 16 * b + c := by omega
  have hstep1 : execute_instruction rand1 m = .ok (true,
      { m with emulator :=
          { m.emulator with
            stack := write m.emulator.stack m.emulator.stack_pointer m.emulator.program_counter
            stack_pointer := m.emulator.stack_pointer + 1
            program_counter := 256 * a + 16 * b + c } }) := by
    have hin : ¬ STACK_SIZE ≤ m.emulator.stack_pointer := by
      simp only [STACK_SIZE]; omega
    have hwrap : (m.emulator.stack_pointer + 1) % STACK_SIZE % 256 =
        m.emulator.stack_pointer + 1 := by
      simp only [STACK_SIZE]; omega
    rw [execute_instruction_of_fetch rand1 m _ hcall]
    simp only [execute_case, section0_eq, address_eq,
      opcode_section0 (by decide : 2 < 16) ha hb hc, opcode_address ha hb hc, if_neg hin,
      hwrap, hjump]
  have hsp2 : uint8 (Int.tmod (((m.emulator.stack_pointer + 1 : Nat) : Int) - 1)
      (STACK_SIZE : Int)) = m.emulator.stack_pointer := by
    have h1 : (((m.emulator.stack_pointer + 1 : Nat) : Int) - 1) =
        (m.emulator.stack_pointer : Int) := by
      push_cast; ring
    rw [h1, Int.tmod_eq_emod (by omega) (by simp [STACK_SIZE])]
    simp only [uint8, STACK_SIZE]
    omega
  have hback : (write m.emulator.stack m.emulator.stack_pointer m.emulator.program_counter
      m.emulator.stack_pointer + 2) % 65536 = m.emulator.program_counter + 2 := by
    simp only [write, if_pos]
    omega
  have hstep2 : execute_instruction rand2
      { m with emulator :=
          { m.emulator with
            stack := write m.emulator.stack m.emulator.stack_pointer m.emulator.program_counter
            stack_pointer := m.emulator.stack_pointer + 1
            program_counter := 256 * a + 16 * b + c } } = .ok (true,
      { m with emulator :=
          { m.emulator with
            stack := write m.emulator.stack m.emulator.stack_pointer m.emulator.program_counter
            stack_pointer := m.emulator.stack_pointer
            program_counter := m.emulator.program_counter + 2 } }) := by
    rw [execute_instruction_of_fetch rand2 _ _ ((fetch_congr rfl rfl).trans hret)]
    have hin : ¬ STACK_SIZE ≤ m.emulator.stack_pointer := by
      simp only [STACK_SIZE]; omega
    simp only [execute_case, section0_eq, section2_eq, section3_eq,
      opcode_section0 (by decide : 0 < 16) (by decide : 0 < 16) (by decide : 0xE < 16)
        (by decide : 0xE < 16),
      opcode_section2 (by decide : 0xE < 16) (by decide : 0xE < 16),
      opcode_section3 (by decide : 0xE < 16), hsp2, if_neg hin, if_pos, hback]
  exact ⟨_, _, hstep1, hstep2, rfl, rfl⟩

/-- A defined `switch` keeps the stack pointer below `STACK_SIZE`. -/
theorem execute_case_stack_pointer (rand inst : Nat) (m m1 : Machine) (v : Bool) (inc : Nat)
    (hsp : m.emulator.stack_pointer < STACK_SIZE)
    (h : execute_case rand inst m = .ok (m1, v, inc)) :
    m1.emulator.stack_pointer < STACK_SIZE := by
  unfold execute_case at h
  simp only at h
  repeat' split at h
  all_goals
    first
    | (simp only [Except.ok.injEq, Prod.mk.injEq] at h
       obtain ⟨rfl, -, -⟩ := h
       first
       | exact hsp
       | (simp only [STACK_SIZE] at *; omega))
    | (simp only [reduceCtorEq] at h)

/-- Every step that has a defined behaviour keeps the stack pointer in `[0, 16)`, whatever
the instruction word. The step on `00EE` at stack pointer `0` is not among them. -/
theorem stack_pointer_invariant (rand : Nat) (m m1 : Machine) (v : Bool)
    (hsp : m.emulator.stack_pointer < STACK_SIZE)
    (h : execute_instruction rand m = .ok (v, m1)) :
    m1.emulator.stack_pointer < STACK_SIZE := by
  unfold execute_instruction at h
  split at h
  · simp only [reduceCtorEq] at h
  · split at h
    · simp only [reduceCtorEq] at h
    · rename_i m2 v2 inc hcase
      simp only [Except.ok.injEq, Prod.mk.injEq] at h
      obtain ⟨-, rfl⟩ := h
      exact execute_case_stack_pointer rand _ m m2 v2 inc hsp hcase

/-- C5, the code at a failing input: after fifteen nested calls the stack pointer is `15` and
the program counter `0x21E`, where `2220` is stored, with `00EE` at `0x220`. The call stores
the stack pointer `0` and jumps to `0x220`; the return then computes `(0 - 1) % 16 = -1`,
stores it in the stack pointer as `255`, and reads `stack[255]`, outside the array: the two
steps do not lead to program counter `0x220` and stack pointer `15`. -/
theorem call_return_at_stack_pointer_15 :
    ∃ m m1, run 0 15 (setup (rom call_chain_program)) = .ok m ∧
      m.emulator.stack_pointer = 15 ∧ m.emulator.program_counter = 0x21E ∧
      fetch m.emulator = .ok (opcode 2 2 2 0) ∧
      m.emulator.memory 0x220 = 0x00 ∧ m.emulator.memory 0x221 = 0xEE ∧
      execute_instruction 0 m = .ok (true, m1) ∧
      m1.emulator.stack_pointer = 0 ∧ m1.emulator.program_counter = 0x220 ∧
      fetch m1.emulator = .ok (opcode 0 0 0xE 0xE) ∧
      execute_instruction 0 m1 = .error (.stack_index 255) ∧
      run 0 2 m = .error (.stack_index 255) :=
  ⟨final_state (run 0 15 (setup (rom call_chain_program))) (setup (rom [])),
    final_state (run 0 16 (setup (rom call_chain_program))) (setup (rom [])),
    rfl, rfl, rfl, rfl, rfl, rfl, rfl, rfl, rfl, rfl, rfl, rfl⟩

/-- C10, the code at a failing input: in the state `setup` builds for the program `00EE` the
stack pointer is `0`; the step computes `(0 - 1) % 16 = -1` in `int` arithmetic, stores it in
the `uint8_t` stack pointer as `255`, and reads `stack[255]`, outside the 16-entry array. No
state with stack pointer `15` results. -/
theorem return_at_stack_pointer_zero :
    (setup (rom return_program)).emulator.stack_pointer = 0 ∧
      fetch (setup (rom return_program)).emulator = .ok (opcode 0 0 0xE 0xE) ∧
      Int.tmod (((setup (rom return_program)).emulator.stack_pointer : Int) - 1)
        (STACK_SIZE : Int) = -1 ∧
      uint8 (-1) = 255 ∧
      execute_instruction 0 (setup (rom return_program)) = .error (.stack_index 255) :=
  ⟨rfl, rfl, rfl, rfl, rfl⟩

/-! ## Unsupported instructions -/

/-- On a rejected word the `switch` changes nothing and leaves `valid_instruction = FALSE`,
`inst_increment = 2`. -/
theorem execute_case_rejected (rand inst : Nat) (m : Machine) (h : rejected inst) :
    execute_case rand inst m = .ok (m, false, 2) := by
  unfold execute_case
  simp only [section0_eq, section1_eq, section2_eq, section3_eq, low_byte_eq]
  unfold rejected at h
  rcases h with h | h | h | h | h | h
  · rw [h.1]
    simp only
    split
    · split
      · omega
      · omega
      · rfl
    · rfl
  · rw [h.1]
    simp only
    rw [if_neg h.2]
  · rw [h.1]
    simp only
    split <;> first | rfl | omega
  · rw [h.1]
    simp only
    rw [if_neg h.2]
  · rw [h.1]
    simp only
    split <;> first | rfl | omega
  · rw [h.1]
    simp only
    split <;> first | rfl | omega

/-- Every rejected word is reported as unsupported and is otherwise a no-op: the step returns
`false`, the program counter advances by 2, and nothing else changes. The words `0xFFFF`,
`0x5xy1`, `0x8xy8` and `0x0123` are rejected; `0x01E0` is not. -/
theorem execute_rejected (rand : Nat) (m : Machine) (inst : Nat)
    (hfetch : fetch m.emulator = .ok inst) (h : rejected inst) :
    execute_instruction rand m =
      .ok (false,
        { m with emulator :=
            { m.emulator with program_counter := m.emulator.program_counter + 2 } }) := by
  have hpc := fetch_in_bounds hfetch
  simp only [MEMORY_SIZE] at hpc
  have hmod : (m.emulator.program_counter + 2) % 65536 = m.emulator.program_counter + 2 := by
    omega
  rw [execute_instruction_of_fetch rand m _ hfetch, execute_case_rejected rand inst m h]
  simp only [hmod]

/-- The example words: `0xFFFF`, `0x5xy1`, `0x8xy8` and `0x0123` are rejected, `0x01E0` is
not. -/
theorem rejected_examples (x y : Nat) (hx : x < 16) (hy : y < 16) :
    rejected 0xFFFF ∧ rejected (opcode 5 x y 1) ∧ rejected (opcode 8 x y 8) ∧
      rejected 0x0123 ∧ ¬ rejected 0x01E0 := by
  refine ⟨by decide, ?_, ?_, by decide, by decide⟩
  · unfold rejected opcode
    omega
  · unfold rejected opcode
    omega

/-- C6, the code at a failing input: after `D001` pixel `0` is on; the step on the word
`01E0`, which is none of the instruction patterns, returns `true` and turns pixel `0` off (it
runs the case of `00E0`). -/
theorem execute_01E0_clears_display :
    ∃ m1 m2, execute_instruction 0 (setup (rom draw_then_01E0_program)) = .ok (true, m1) ∧
      m1.screen.pixel 0 = 1 ∧
      fetch m1.emulator = .ok 0x01E0 ∧
      execute_instruction 0 m1 = .ok (true, m2) ∧
      m2.screen.pixel 0 = 0 :=
  ⟨final_state (run 0 1 (setup (rom draw_then_01E0_program))) (setup (rom [])),
    final_state (run 0 2 (setup (rom draw_then_01E0_program))) (setup (rom [])),
    rfl, rfl, rfl, rfl, rfl⟩

/-! ## Waiting for a key: `Fx0A` -/

/-- The key scan stops at the lowest key that shows a release. -/
theorem scan_keys_eq (prev cur k : Nat) (hone : (prev >>> k) &&& 1 = 1)
    (hzero : (cur >>> k) &&& 1 = 0) :
    ∀ (remaining start : Nat), start ≤ k → k < start + remaining →
      (∀ j, start ≤ j → j < k → ¬ ((prev >>> j) &&& 1 = 1 ∧ (cur >>> j) &&& 1 = 0)) →
      scan_keys prev cur remaining start = k := by
  intro remaining
  induction remaining with
  | zero => intro start h1 h2; omega
  | succ r ih =>
    intro start h1 h2 hlow
    unfold scan_keys
    by_cases hk : start = k
    · subst hk
      simp [hone, hzero]
    · have hstart := hlow start (Nat.le_refl _) (by omega)
      have hcond : ¬ ((prev >>> start) &&& 0x1 ≠ 0 ∧ ¬ ((cur >>> start) &&& 0x1 ≠ 0)) := by
        intro h
        apply hstart
        have h2 : (prev >>> start) &&& 1 < 2 := by
          rw [Nat.and_one_is_mod]; omega
        refine ⟨by omega, ?_⟩
        simpa using h.2
      rw [if_neg hcond]
      exact ih (start + 1) (by omega) (by omega) (fun j hj1 hj2 => hlow j (by omega) hj2)

/-- What the code does on `Fx0A` in two of its three cases: when some key is down
(`controller` is not zero) and key `k` is the lowest key that shows a release, the step
stores `k` in `Vx` and advances the program counter by 2; when no key is down (`controller`
is zero) the step leaves the whole state unchanged, whether or not a key shows a release. -/
theorem execute_Fx0A (rand : Nat) (m : Machine) (x : Nat) (hx : x < 16)
    (hfetch : fetch m.emulator = .ok (opcode 0xF x 0 0xA)) :
    (m.emulator.controller ≠ 0 → ∀ k, k < 16 → key_released m.emulator k →
      (∀ j, j < k → ¬ key_released m.emulator j) →
      ∃ m1, execute_instruction rand m = .ok (true, m1) ∧ m1.emulator.registers x = k ∧
        m1.emulator.program_counter = m.emulator.program_counter + 2) ∧
    (m.emulator.controller = 0 → execute_instruction rand m = .ok (true, m)) := by
  have hpc := fetch_in_bounds hfetch
  simp only [MEMORY_SIZE] at hpc
  rw [execute_instruction_of_fetch rand m _ hfetch]
  simp only [execute_case, section0_eq, section1_eq, low_byte_eq,
    opcode_section0 (by decide : 0xF < 16) hx (by decide : 0 < 16) (by decide : 0xA < 16),
    opcode_section1 hx (by decide : 0 < 16) (by decide : 0xA < 16),
    opcode_low_byte (by decide : 0 < 16) (by decide : 0xA < 16)]
  constructor
  · intro hdown k hk hrel hlow
    have hscan : scan_keys m.emulator.controller_prev m.emulator.controller KEYBOARD_COUNT 0 = k :=
      scan_keys_eq _ _ k hrel.1 hrel.2 KEYBOARD_COUNT 0 (Nat.zero_le _)
        (by simp only [KEYBOARD_COUNT]; omega) (fun j _ hj => hlow j hj)
    simp only [if_pos hdown, hscan]
    refine ⟨_, rfl, ?_, ?_⟩
    · simp only [write, if_pos]
      omega
    · show (m.emulator.program_counter + 2) % 65536 = m.emulator.program_counter + 2
      omega
  · intro hnone
    have hmod : (m.emulator.program_counter + 0) % 65536 = m.emulator.program_counter := by
      omega
    rw [if_neg (not_not.mpr hnone)]
    simp only [hmod]

/-- An instance of `execute_Fx0A`: with key 2 held and key 1 released the step on `F00A`
stores `1` in `V0` and moves the program counter from `0x200` to `0x202`. -/
theorem execute_Fx0A_scenario :
    key_1_released_key_2_held_state.emulator.controller = 0x0004 ∧
      key_1_released_key_2_held_state.emulator.controller_prev = 0x0006 ∧
      ∃ m1, execute_instruction 0 key_1_released_key_2_held_state = .ok (true, m1) ∧
        m1.emulator.registers 0 = 1 ∧ m1.emulator.program_counter = 0x202 :=
  ⟨rfl, rfl,
    (execute_Fx0A 0 key_1_released_key_2_held_state 0 (by decide) rfl).1 (by decide) 1
      (by decide) ⟨rfl, rfl⟩
      (fun j hj h => by
        obtain rfl : j = 0 := by omega
        exact absurd h.1 (by decide))⟩

/-- C9, the code at two failing inputs. With key 1 held and no key released
(`controller = 0x0002`, `controller_prev = 0`) the step on `F00A` does not wait: it stores
`KEYBOARD_COUNT = 16`, which is no key, in `V0` and advances the program counter to `0x202`.
With key 1 released and no key held (`controller = 0`, `controller_prev = 0x0002`) the
release of key 1 is not seen: the step changes nothing, `V0` stays `0` and the program counter
stays at `0x200`. -/
theorem execute_Fx0A_failing_inputs :
    (fetch key_1_held_state.emulator = .ok (opcode 0xF 0 0 0xA) ∧
      key_1_held_state.emulator.controller = 0x0002 ∧
      key_1_held_state.emulator.controller_prev = 0 ∧
      (∀ k, k < 16 → ¬ key_released key_1_held_state.emulator k) ∧
      key_1_held_state.emulator.registers 0 = 0 ∧
      key_1_held_state.emulator.program_counter = 0x200 ∧
      ∃ m1, execute_instruction 0 key_1_held_state = .ok (true, m1) ∧
        m1.emulator.registers 0 = 16 ∧ m1.emulator.program_counter = 0x202) ∧
    (fetch key_1_released_state.emulator = .ok (opcode 0xF 0 0 0xA) ∧
      key_1_released_state.emulator.controller = 0 ∧
      key_1_released_state.emulator.controller_prev = 0x0002 ∧
      key_released key_1_released_state.emulator 1 ∧
      ¬ key_released key_1_released_state.emulator 0 ∧
      key_1_released_state.emulator.registers 0 = 0 ∧
      key_1_released_state.emulator.program_counter = 0x200 ∧
      execute_instruction 0 key_1_released_state = .ok (true, key_1_released_state)) :=
  ⟨⟨rfl, rfl, rfl, by decide, rfl, rfl,
      final_state (run 0 1 key_1_held_state) (setup (rom [])), rfl, rfl, rfl⟩,
    ⟨rfl, rfl, rfl, ⟨rfl, rfl⟩, fun h => absurd h.1 (by decide), rfl, rfl, rfl⟩⟩

/-! ## Register store and load: `Fx55`, `Fx65` -/

/-- The store loop inside the memory: it is defined, writes `value i` at
`memory_register + i` for every `i < count`, and leaves the other bytes. -/
theorem store_loop_ok (value : Nat → Nat) (a : Nat) :
    ∀ (count : Nat) (memory : Nat → Nat), a + count ≤ MEMORY_SIZE →
      ∃ memory1, store_loop value a count memory = .ok memory1 ∧
        ∀ k, memory1 k = if a ≤ k ∧ k < a + count then value (k - a) else memory k := by
  intro count
  induction count with
  | zero =>
    intro memory _
    refine ⟨memory, rfl, fun k => ?_⟩
    rw [if_neg (by omega)]
  | succ n ih =>
    intro memory hle
    obtain ⟨memory1, hloop, hmem⟩ := ih memory (by omega)
    have hin : ¬ MEMORY_SIZE ≤ a + n := by omega
    refine ⟨write memory1 (a + n) (value n), ?_, fun k => ?_⟩
    · simp only [store_loop, hloop, if_neg hin]
    · simp only [write, hmem k]
      by_cases hk : k = a + n
      · subst hk
        simp
      · rw [if_neg hk]
        by_cases hr : a ≤ k ∧ k < a + n
        · rw [if_pos hr, if_pos (by omega)]
        · rw [if_neg hr, if_neg (by omega)]

/-- The load loop inside the memory: it is defined, sets register `i` to the byte at
`memory_register + i` for every `i < count`, and leaves the other registers. -/
theorem load_loop_ok (memory : Nat → Nat) (a : Nat) :
    ∀ (count : Nat) (registers : Nat → Nat), a + count ≤ MEMORY_SIZE →
      ∃ registers1, load_loop memory a count registers = .ok registers1 ∧
        ∀ i, registers1 i = if i < count then memory (a + i) else registers i := by
  intro count
  induction count with
  | zero =>
    intro registers _
    exact ⟨registers, rfl, fun i => by rw [if_neg (by omega)]⟩
  | succ n ih =>
    intro registers hle
    obtain ⟨registers1, hloop, hreg⟩ := ih registers (by omega)
    have hin : ¬ MEMORY_SIZE ≤ a + n := by omega
    refine ⟨write registers1 n (memory (a + n)), ?_, fun i => ?_⟩
    · simp only [load_loop, hloop, if_neg hin]
    · simp only [write, hreg i]
      by_cases hi : i = n
      · subst hi
        simp
      · rw [if_neg hi]
        by_cases hr : i < n
        · rw [if_pos hr, if_pos (by omega)]
        · rw [if_neg hr, if_neg (by omega)]

/-- C8: for `x` in `0..15` and an index register value `a` with `a + x < 4096`, the step on
`Fx55` with index register `a` is defined and leaves the index register at `a + x + 1`; and
in every later state whose index register is `a` again and whose memory still holds what the
store wrote at `a .. a + x` (the registers being arbitrary), the step on `Fx65` is defined,
gives `V0..Vx` the values they had when `Fx55` ran, and leaves the index register at
`a + x + 1`. -/
theorem store_load_round_trip (rand : Nat) (m : Machine) (x a : Nat) (hx : x < 16)
    (ha : a + x < 4096) (hI : m.emulator.memory_register = a)
    (hfetch : fetch m.emulator = .ok (opcode 0xF x 5 5)) :
    ∃ m1, execute_instruction rand m = .ok (true, m1) ∧
      m1.emulator.memory_register = a + x + 1 ∧
      ∀ (rand2 : Nat) (m2 : Machine),
        (∀ i, i ≤ x → m2.emulator.memory (a + i) = m1.emulator.memory (a + i)) →
        m2.emulator.memory_register = a →
        fetch m2.emulator = .ok (opcode 0xF x 6 5) →
        ∃ m3, execute_instruction rand2 m2 = .ok (true, m3) ∧
          m3.emulator.memory_register = a + x + 1 ∧
          ∀ i, i ≤ x → m3.emulator.registers i = m.emulator.registers i := by
  obtain ⟨memory1, hstore, hmem⟩ :=
    store_loop_ok m.emulator.registers a (x + 1) m.emulator.memory
      (by simp only [MEMORY_SIZE]; omega)
  rw [execute_instruction_of_fetch rand m _ hfetch]
  simp only [execute_case, section0_eq, section1_eq, low_byte_eq,
    opcode_section0 (by decide : 0xF < 16) hx (by decide : 5 < 16) (by decide : 5 < 16),
    opcode_section1 hx (by decide : 5 < 16) (by decide : 5 < 16),
    opcode_low_byte (by decide : 5 < 16) (by decide : 5 < 16), hI, hstore]
  refine ⟨_, rfl, ?_, ?_⟩
  · show (a + (x + 1)) % 65536 = a + x + 1
    omega
  · intro rand2 m2 hsame hI2 hfetch2
    obtain ⟨registers1, hload, hreg⟩ :=
      load_loop_ok m2.emulator.memory a (x + 1) m2.emulator.registers
        (by simp only [MEMORY_SIZE]; omega)
    rw [execute_instruction_of_fetch rand2 m2 _ hfetch2]
    simp only [execute_case, section0_eq, section1_eq, low_byte_eq,
      opcode_section0 (by decide : 0xF < 16) hx (by decide : 6 < 16) (by decide : 5 < 16),
      opcode_section1 hx (by decide : 6 < 16) (by decide : 5 < 16),
      opcode_low_byte (by decide : 6 < 16) (by decide : 5 < 16), hI2, hload]
    refine ⟨_, rfl, ?_, ?_⟩
    · show (a + (x + 1)) % 65536 = a + x + 1
      omega
    · intro i hi
      show registers1 i = m.emulator.registers i
      rw [hreg i, if_pos (by omega), hsame i hi]
      show memory1 (a + i) = m.emulator.registers i
      rw [hmem (a + i), if_pos (by omega)]
      congr 1
      omega

/-- The witness of C8: in the program `6007 6109 A300 F155 6000 6100 A300 F165` the store runs
with `V0 = 7`, `V1 = 9`, `I = 0x300` and leaves `I = 0x302`; three steps later both registers
are `0` and `I` is `0x300` again, and the load restores `V0 = 7`, `V1 = 9` and leaves
`I = 0x302`. -/
theorem store_load_scenario :
    ∃ m m1 m2 m3, run 0 3 (setup (rom store_load_program)) = .ok m ∧
      execute_instruction 0 m = .ok (true, m1) ∧ m1.emulator.memory_register = 0x302 ∧
      run 0 3 m1 = .ok m2 ∧
      m2.emulator.registers 0 = 0 ∧ m2.emulator.registers 1 = 0 ∧
      m2.emulator.memory_register = 0x300 ∧
      execute_instruction 0 m2 = .ok (true, m3) ∧
      m3.emulator.registers 0 = 7 ∧ m3.emulator.registers 1 = 9 ∧
      m3.emulator.memory_register = 0x302 := by
  obtain ⟨m1, hstep1, hI1, hload⟩ :=
    store_load_round_trip 0
      (final_state (run 0 3 (setup (rom store_load_program))) (setup (rom [])))
      1 0x300 (by decide) (by decide) rfl rfl
  have hm1 : m1 = final_state (run 0 4 (setup (rom store_load_program))) (setup (rom [])) :=
    (Prod.mk.inj (Except.ok.inj (hstep1.symm.trans rfl))).2
  subst hm1
  obtain ⟨m3, hstep3, hI3, hregs⟩ :=
    hload 0 (final_state (run 0 7 (setup (rom store_load_program))) (setup (rom [])))
      (fun i hi => by
        obtain rfl | rfl : i = 0 ∨ i = 1 := by omega
        · rfl
        · rfl)
      rfl rfl
  exact ⟨_, _, _, m3, rfl, hstep1, rfl, rfl, rfl, rfl, rfl, hstep3,
    (hregs 0 (by decide)).trans rfl, (hregs 1 (by decide)).trans rfl, hI3⟩

/-! ## Drawing: `Dxyn` -/

theorem write_write_same (a : Nat → Nat) (i v : Nat) : write (write a i v) i v = write a i v := by
  funext k
  simp only [write]
  split <;> rfl

/-- The inner loop of `Dxyn`: the pixels of the row at the visited columns are XORed with the
sprite pixels, the other pixels are left, and `VF` is set to `TRUE` exactly when a visited
pixel was on where the sprite pixel is on. -/
theorem draw_row_spec (spr x row : Nat) :
    ∀ (count j0 : Nat) (registers pixel : Nat → Nat),
      (∀ k, (in_row x row j0 count k →
              (draw_row spr x row count j0 (registers, pixel)).2 k =
                pixel k ^^^ sprite_bit spr (k % SCREEN_WIDTH - x)) ∧
            (¬ in_row x row j0 count k →
              (draw_row spr x row count j0 (registers, pixel)).2 k = pixel k)) ∧
      ((∃ k, in_row x row j0 count k ∧ pixel k ≠ 0 ∧
          sprite_bit spr (k % SCREEN_WIDTH - x) ≠ 0) →
        (draw_row spr x row count j0 (registers, pixel)).1 = write registers 0xF TRUE) ∧
      ((¬ ∃ k, in_row x row j0 count k ∧ pixel k ≠ 0 ∧
          sprite_bit spr (k % SCREEN_WIDTH - x) ≠ 0) →
        (draw_row spr x row count j0 (registers, pixel)).1 = registers) := by
  intro count
  induction count with
  | zero =>
    intro j0 registers pixel
    refine ⟨fun k => ⟨fun h => ?_, fun _ => rfl⟩, fun h => ?_, fun _ => rfl⟩
    · simp only [in_row] at h
      omega
    · obtain ⟨k, h, _⟩ := h
      simp only [in_row] at h
      omega
  | succ r ih =>
    intro j0 registers pixel
    by_cases hclip : SCREEN_WIDTH ≤ x + j0
    · have hrow : draw_row spr x row (r + 1) j0 (registers, pixel) = (registers, pixel) := by
        simp only [draw_row, if_pos hclip]
      rw [hrow]
      simp only [SCREEN_WIDTH] at hclip
      refine ⟨fun k => ⟨fun h => ?_, fun _ => rfl⟩, fun h => ?_, fun _ => rfl⟩
      · simp only [in_row, SCREEN_WIDTH] at h
        omega
      · obtain ⟨k, h, _⟩ := h
        simp only [in_row, SCREEN_WIDTH] at h
        omega
    · have hrow : draw_row spr x row (r + 1) j0 (registers, pixel) =
          draw_row spr x row r (j0 + 1)
            (if pixel (SCREEN_WIDTH * row + (x + j0)) ≠ 0 ∧ sprite_bit spr j0 ≠ 0 then
                write registers 0xF TRUE else registers,
              write pixel (SCREEN_WIDTH * row + (x + j0))
                (pixel (SCREEN_WIDTH * row + (x + j0)) ^^^ sprite_bit spr j0)) := by
        simp only [draw_row, if_neg hclip]
      rw [hrow]
      obtain ⟨ihpix, ihset, ihkeep⟩ := ih (j0 + 1)
        (if pixel (SCREEN_WIDTH * row + (x + j0)) ≠ 0 ∧ sprite_bit spr j0 ≠ 0 then
            write registers 0xF TRUE else registers)
        (write pixel (SCREEN_WIDTH * row + (x + j0))
            (pixel (SCREEN_WIDTH * row + (x + j0)) ^^^ sprite_bit spr j0))
      simp only [SCREEN_WIDTH] at hclip
      have hp_row : ¬ in_row x row (j0 + 1) r (SCREEN_WIDTH * row + (x + j0)) := by
        simp only [in_row, SCREEN_WIDTH]
        omega
      have hsplit : ∀ k, in_row x row j0 (r + 1) k ↔
          (k = SCREEN_WIDTH * row + (x + j0) ∨ in_row x row (j0 + 1) r k) := by
        intro k
        simp only [in_row, SCREEN_WIDTH]
        omega
      have hoff : (SCREEN_WIDTH * row + (x + j0)) % SCREEN_WIDTH - x = j0 := by
        simp only [SCREEN_WIDTH]
        omega
      refine ⟨fun k => ⟨fun h => ?_, fun h => ?_⟩, fun h => ?_, fun h => ?_⟩
      · rcases (hsplit k).1 h with hk | hk
        · subst hk
          rw [(ihpix _).2 hp_row, hoff]
          simp only [write, if_pos]
        · have hne : k ≠ SCREEN_WIDTH * row + (x + j0) := fun he => hp_row (he ▸ hk)
          rw [(ihpix k).1 hk]
          simp only [write, if_neg hne]
      · have hk1 : ¬ in_row x row (j0 + 1) r k := fun hk => h ((hsplit k).2 (Or.inr hk))
        have hne : k ≠ SCREEN_WIDTH * row + (x + j0) := fun he => h ((hsplit k).2 (Or.inl he))
        rw [(ihpix k).2 hk1]
        simp only [write, if_neg hne]
      · have hpix1 : ∀ k, in_row x row (j0 + 1) r k →
            write pixel (SCREEN_WIDTH * row + (x + j0))
              (pixel (SCREEN_WIDTH * row + (x + j0)) ^^^ sprite_bit spr j0) k = pixel k := by
          intro k hk
          have hne : k ≠ SCREEN_WIDTH * row + (x + j0) := fun he => hp_row (he ▸ hk)
          simp only [write, if_neg hne]
        by_cases hc : pixel (SCREEN_WIDTH * row + (x + j0)) ≠ 0 ∧ sprite_bit spr j0 ≠ 0
        · rw [if_pos hc] at ihset ihkeep ⊢
          by_cases hrest : ∃ k, in_row x row (j0 + 1) r k ∧
              write pixel (SCREEN_WIDTH * row + (x + j0))
                (pixel (SCREEN_WIDTH * row + (x + j0)) ^^^ sprite_bit spr j0) k ≠ 0 ∧
              sprite_bit spr (k % SCREEN_WIDTH - x) ≠ 0
          · rw [ihset hrest, write_write_same]
          · rw [ihkeep hrest]
        · rw [if_neg hc] at ihset ihkeep ⊢
          obtain ⟨k, hk, hon, hbit⟩ := h
          rcases (hsplit k).1 hk with hk | hk
          · subst hk
            rw [hoff] at hbit
            exact absurd ⟨hon, hbit⟩ hc
          · exact ihset ⟨k, hk, by rw [hpix1 k hk]; exact hon, hbit⟩
      · have hpix1 : ∀ k, in_row x row (j0 + 1) r k →
            write pixel (SCREEN_WIDTH * row + (x + j0))
              (pixel (SCREEN_WIDTH * row + (x + j0)) ^^^ sprite_bit spr j0) k = pixel k := by
          intro k hk
          have hne : k ≠ SCREEN_WIDTH * row + (x + j0) := fun he => hp_row (he ▸ hk)
          simp only [write, if_neg hne]
        have hc : ¬ (pixel (SCREEN_WIDTH * row + (x + j0)) ≠ 0 ∧ sprite_bit spr j0 ≠ 0) := by
          intro hc
          exact h ⟨_, (hsplit _).2 (Or.inl rfl), hc.1, by rw [hoff]; exact hc.2⟩
        rw [if_neg hc] at ihkeep ⊢
        apply ihkeep
        rintro ⟨k, hk, hon, hbit⟩
        exact h ⟨k, (hsplit k).2 (Or.inr hk), by rw [← hpix1 k hk]; exact hon, hbit⟩

/-- The loops of `Dxyn` with the sprite inside the memory: the draw is defined, the pixels the
sprite covers are XORed with the sprite pixels, the other pixels are left, and `VF` is set to
`TRUE` exactly when a covered pixel was on where the sprite pixel is on. -/
theorem draw_sprite_spec (memory : Nat → Nat) (a x y : Nat) :
    ∀ (count i0 : Nat) (registers pixel : Nat → Nat), a + i0 + count ≤ MEMORY_SIZE →
      ∃ registers1 pixel1,
        draw_sprite memory a x y count i0 (registers, pixel) = .ok (registers1, pixel1) ∧
        (∀ k, (in_sprite x y i0 count k →
                pixel1 k = pixel k ^^^ sprite_value memory a x y k) ∧
              (¬ in_sprite x y i0 count k → pixel1 k = pixel k)) ∧
        ((∃ k, in_sprite x y i0 count k ∧ pixel k ≠ 0 ∧ sprite_value memory a x y k ≠ 0) →
          registers1 = write registers 0xF TRUE) ∧
        ((¬ ∃ k, in_sprite x y i0 count k ∧ pixel k ≠ 0 ∧
            sprite_value memory a x y k ≠ 0) →
          registers1 = registers) := by
  intro count
  induction count with
  | zero =>
    intro i0 registers pixel _
    refine ⟨registers, pixel, rfl, fun k => ⟨fun h => ?_, fun _ => rfl⟩, fun h => ?_,
      fun _ => rfl⟩
    · simp only [in_sprite] at h
      omega
    · obtain ⟨k, h, _⟩ := h
      simp only [in_sprite] at h
      omega
  | succ n ih =>
    intro i0 registers pixel hle
    by_cases hbreak : SCREEN_HEIGHT ≤ y + i0
    · refine ⟨registers, pixel, by simp only [draw_sprite, if_pos hbreak],
        fun k => ⟨fun h => ?_, fun _ => rfl⟩, fun h => ?_, fun _ => rfl⟩
      · simp only [in_sprite] at h
        omega
      · obtain ⟨k, h, _⟩ := h
        simp only [in_sprite] at h
        omega
    · have hin : ¬ MEMORY_SIZE ≤ a + i0 := by omega
      obtain ⟨rpix, rset, rkeep⟩ :=
        draw_row_spec (memory (a + i0)) x (y + i0) 8 0 registers pixel
      obtain ⟨registers1, pixel1, hloop, hpix, hset, hkeep⟩ :=
        ih (i0 + 1) (draw_row (memory (a + i0)) x (y + i0) 8 0 (registers, pixel)).1
          (draw_row (memory (a + i0)) x (y + i0) 8 0 (registers, pixel)).2 (by omega)
      simp only [SCREEN_HEIGHT] at hbreak
      have hsplit : ∀ k, in_sprite x y i0 (n + 1) k ↔
          (in_row x (y + i0) 0 8 k ∨ in_sprite x y (i0 + 1) n k) := by
        intro k
        simp only [in_sprite, in_row, SCREEN_WIDTH, SCREEN_HEIGHT]
        omega
      have hexcl : ∀ k, in_row x (y + i0) 0 8 k → ¬ in_sprite x y (i0 + 1) n k := by
        intro k
        simp only [in_sprite, in_row, SCREEN_WIDTH, SCREEN_HEIGHT]
        omega
      have hval : ∀ k, in_row x (y + i0) 0 8 k →
          sprite_value memory a x y k = sprite_bit (memory (a + i0)) (k % SCREEN_WIDTH - x) := by
        intro k hk
        have hrow : k / SCREEN_WIDTH - y = i0 := by
          simp only [in_row] at hk
          omega
        simp only [sprite_value, hrow]
      refine ⟨registers1, pixel1, by simp only [draw_sprite, if_neg hbreak, if_neg hin, SCREEN_HEIGHT]; exact hloop,
        fun k => ⟨fun h => ?_, fun h => ?_⟩, fun h => ?_, fun h => ?_⟩
      · rcases (hsplit k).1 h with hk | hk
        · rw [(hpix k).2 (hexcl k hk), (rpix k).1 hk, hval k hk]
        · have hnot : ¬ in_row x (y + i0) 0 8 k := fun hr => hexcl k hr hk
          rw [(hpix k).1 hk, (rpix k).2 hnot]
      · have hk1 : ¬ in_row x (y + i0) 0 8 k := fun hk => h ((hsplit k).2 (Or.inl hk))
        have hk2 : ¬ in_sprite x y (i0 + 1) n k := fun hk => h ((hsplit k).2 (Or.inr hk))
        rw [(hpix k).2 hk2, (rpix k).2 hk1]
      · by_cases hc : ∃ k, in_row x (y + i0) 0 8 k ∧ pixel k ≠ 0 ∧
            sprite_bit (memory (a + i0)) (k % SCREEN_WIDTH - x) ≠ 0
        · rw [rset hc] at hset hkeep
          by_cases hrest : ∃ k, in_sprite x y (i0 + 1) n k ∧
              (draw_row (memory (a + i0)) x (y + i0) 8 0 (registers, pixel)).2 k ≠ 0 ∧
              sprite_value memory a x y k ≠ 0
          · rw [hset hrest, write_write_same]
          · rw [hkeep hrest]
        · rw [rkeep hc] at hset
          obtain ⟨k, hk, hon, hbit⟩ := h
          rcases (hsplit k).1 hk with hk | hk
          · exact absurd ⟨k, hk, hon, by rw [← hval k hk]; exact hbit⟩ hc
          · have hnot : ¬ in_row x (y + i0) 0 8 k := fun hr => hexcl k hr hk
            exact hset ⟨k, hk, by rw [(rpix k).2 hnot]; exact hon, hbit⟩
      · have hc : ¬ ∃ k, in_row x (y + i0) 0 8 k ∧ pixel k ≠ 0 ∧
            sprite_bit (memory (a + i0)) (k % SCREEN_WIDTH - x) ≠ 0 := by
          rintro ⟨k, hk, hon, hbit⟩
          exact h ⟨k, (hsplit k).2 (Or.inl hk), hon, by rw [hval k hk]; exact hbit⟩
        rw [rkeep hc] at hkeep
        apply hkeep
        rintro ⟨k, hk, hon, hbit⟩
        have hnot : ¬ in_row x (y + i0) 0 8 k := fun hr => hexcl k hr hk
        exact h ⟨k, (hsplit k).2 (Or.inr hk), by rw [← (rpix k).2 hnot]; exact hon, hbit⟩

theorem write_write (a : Nat → Nat) (i v w : Nat) : write (write a i v) i w = write a i w := by
  funext k
  simp only [write]
  split <;> rfl

/-- The step on `Dxyn` with the sprite inside the memory: it is defined and returns `true`;
the program counter advances by 2; the pixels the sprite covers are XORed with the sprite
pixels and the other pixels are left; `VF` becomes `TRUE` when a covered pixel was on where
the sprite pixel is on and `FALSE` otherwise; nothing else changes. -/
theorem execute_Dxyn (rand : Nat) (m : Machine) (x y n : Nat) (hx : x < 16) (hy : y < 16)
    (hn : n < 16) (hfetch : fetch m.emulator = .ok (opcode 0xD x y n))
    (hI : m.emulator.memory_register + n ≤ MEMORY_SIZE) :
    ∃ registers1 pixel1,
      execute_instruction rand m =
        .ok (true,
          { emulator :=
              { m.emulator with
                registers := registers1
                program_counter := m.emulator.program_counter + 2 }
            screen := { pixel := pixel1 } }) ∧
      (∀ k,
        (in_sprite (sprite_column m.emulator.registers x) (sprite_row m.emulator.registers y)
            0 n k →
          pixel1 k = m.screen.pixel k ^^^
            sprite_value m.emulator.memory m.emulator.memory_register
              (sprite_column m.emulator.registers x) (sprite_row m.emulator.registers y) k) ∧
        (¬ in_sprite (sprite_column m.emulator.registers x)
            (sprite_row m.emulator.registers y) 0 n k →
          pixel1 k = m.screen.pixel k)) ∧
      ((∃ k, in_sprite (sprite_column m.emulator.registers x)
            (sprite_row m.emulator.registers y) 0 n k ∧ m.screen.pixel k ≠ 0 ∧
          sprite_value m.emulator.memory m.emulator.memory_register
            (sprite_column m.emulator.registers x) (sprite_row m.emulator.registers y) k ≠ 0) →
        registers1 = write m.emulator.registers 0xF TRUE) ∧
      ((¬ ∃ k, in_sprite (sprite_column m.emulator.registers x)
            (sprite_row m.emulator.registers y) 0 n k ∧ m.screen.pixel k ≠ 0 ∧
          sprite_value m.emulator.memory m.emulator.memory_register
            (sprite_column m.emulator.registers x) (sprite_row m.emulator.registers y) k ≠ 0) →
        registers1 = write m.emulator.registers 0xF FALSE) := by
  have hpc := fetch_in_bounds hfetch
  simp only [MEMORY_SIZE] at hpc
  obtain ⟨registers1, pixel1, hloop, hpix, hset, hkeep⟩ :=
    draw_sprite_spec m.emulator.memory m.emulator.memory_register
      (sprite_column m.emulator.registers x) (sprite_row m.emulator.registers y) n 0
      (write m.emulator.registers 0xF FALSE) m.screen.pixel (by omega)
  have hmod : (m.emulator.program_counter + 2) % 65536 = m.emulator.program_counter + 2 := by
    omega
  refine ⟨registers1, pixel1, ?_, hpix, fun h => ?_, hkeep⟩
  · simp only [sprite_column, sprite_row] at hloop
    rw [execute_instruction_of_fetch rand m _ hfetch]
    simp only [execute_case, section0_eq, section1_eq, section2_eq, section3_eq,
      opcode_section0 (by decide : 0xD < 16) hx hy hn, opcode_section1 hx hy hn,
      opcode_section2 hy hn, opcode_section3 hn, hloop, hmod]
  · rw [hset h, write_write]

/-- A pixel the sprite covers is a pixel of the display. -/
theorem in_sprite_lt {x y i0 n k : Nat} (h : in_sprite x y i0 n k) : k < PIXEL_COUNT := by
  simp only [in_sprite, SCREEN_WIDTH, SCREEN_HEIGHT] at h
  simp only [PIXEL_COUNT]
  omega

/-- C7 as the code has it: from a display with every pixel off, with `I + n <= 4096`, two
consecutive steps on the same `Dxyn` (the word at the program counter and the word after it)
are defined and leave every pixel of the display off; after the second draw `VF` is `1` if
the first draw turned at least one pixel on, and `0` if it turned none on. -/
theorem draw_twice (rand1 rand2 : Nat) (m : Machine) (x y n : Nat) (hx : x < 16)
    (hy : y < 16) (hn : n < 16)
    (hfetch1 : fetch m.emulator = .ok (opcode 0xD x y n))
    (hfetch2 : fetch { m.emulator with program_counter := m.emulator.program_counter + 2 } =
      .ok (opcode 0xD x y n))
    (hI : m.emulator.memory_register + n ≤ 4096)
    (hoff : ∀ k, k < PIXEL_COUNT → m.screen.pixel k = 0) :
    ∃ m1 m2, execute_instruction rand1 m = .ok (true, m1) ∧
      execute_instruction rand2 m1 = .ok (true, m2) ∧
      (∀ k, k < PIXEL_COUNT → m2.screen.pixel k = 0) ∧
      ((∃ k, k < PIXEL_COUNT ∧ m1.screen.pixel k ≠ 0) → m2.emulator.registers 0xF = 1) ∧
      ((∀ k, k < PIXEL_COUNT → m1.screen.pixel k = 0) → m2.emulator.registers 0xF = 0) := by
  obtain ⟨registers1, pixel1, hstep1, hpix1, -, hkeep1⟩ :=
    execute_Dxyn rand1 m x y n hx hy hn hfetch1 hI
  have hregs1 : registers1 = write m.emulator.registers 0xF FALSE :=
    hkeep1 (fun ⟨k, hk, hon, _⟩ => hon (hoff k (in_sprite_lt hk)))
  subst hregs1
  obtain ⟨registers2, pixel2, hstep2, hpix2, hset2, hkeep2⟩ :=
    execute_Dxyn rand2
      { emulator :=
          { m.emulator with
            registers := write m.emulator.registers 0xF FALSE
            program_counter := m.emulator.program_counter + 2 }
        screen := { pixel := pixel1 } }
      x y n hx hy hn ((fetch_congr rfl rfl).trans hfetch2) hI
  simp only [sprite_column, sprite_row, write_write] at hpix1 hpix2 hset2 hkeep2
  refine ⟨_, _, hstep1, hstep2, fun k hk => ?_, fun h => ?_, fun h => ?_⟩
  · show pixel2 k = 0
    by_cases hin : in_sprite (write m.emulator.registers 0xF FALSE x % SCREEN_WIDTH)
        (write m.emulator.registers 0xF FALSE y % SCREEN_HEIGHT) 0 n k
    · rw [(hpix2 k).1 hin, (hpix1 k).1 hin, hoff k hk]
      simp
    · rw [(hpix2 k).2 hin, (hpix1 k).2 hin, hoff k hk]
  · show registers2 0xF = 1
    obtain ⟨k, hk, hon⟩ := h
    have hon1 : pixel1 k ≠ 0 := hon
    have hin : in_sprite (write m.emulator.registers 0xF FALSE x % SCREEN_WIDTH)
        (write m.emulator.registers 0xF FALSE y % SCREEN_HEIGHT) 0 n k := by
      by_contra hin
      exact hon1 (by rw [(hpix1 k).2 hin, hoff k hk])
    have hval : pixel1 k = sprite_value m.emulator.memory m.emulator.memory_register
        (write m.emulator.registers 0xF FALSE x % SCREEN_WIDTH)
        (write m.emulator.registers 0xF FALSE y % SCREEN_HEIGHT) k := by
      rw [(hpix1 k).1 hin, hoff k hk]
      simp
    rw [hset2 ⟨k, hin, hon1, by rw [← hval]; exact hon1⟩]
    simp [write, TRUE]
  · show registers2 0xF = 0
    rw [hkeep2 (fun ⟨k, hk, hon, _⟩ => hon (h k (in_sprite_lt hk)))]
    simp [write, FALSE]

/-- The witness of `draw_twice`: for the program `D005 D005` the first draw turns pixel `0`
on, and after the second draw every pixel is off and `VF` is `1`. -/
theorem draw_twice_scenario :
    ∃ m1 m2, execute_instruction 0 (setup (rom draw_twice_program)) = .ok (true, m1) ∧
      m1.screen.pixel 0 = 1 ∧
      execute_instruction 0 m1 = .ok (true, m2) ∧
      (∀ k, k < PIXEL_COUNT → m2.screen.pixel k = 0) ∧
      m2.emulator.registers 0xF = 1 := by
  obtain ⟨m1, m2, hstep1, hstep2, hoff, hflag, -⟩ :=
    draw_twice 0 0 (setup (rom draw_twice_program)) 0 0 5 (by decide) (by decide) (by decide)
      rfl rfl (by decide) (fun _ _ => rfl)
  have hm1 : m1 = final_state (run 0 1 (setup (rom draw_twice_program))) (setup (rom [])) :=
    (Prod.mk.inj (Except.ok.inj (hstep1.symm.trans rfl))).2
  subst hm1
  exact ⟨_, m2, hstep1, rfl, hstep2, hoff, hflag ⟨0, by decide, by decide⟩⟩

/-- C7 fails as stated: for the program `A300 D001 D001` the display is off and `I = 0x300`
after the first step, the sprite byte at `0x300` is zero, and the same `D001` is executed
twice with `V0`, `I` and the sprite byte unchanged; after the second draw `VF` is `0`, not
`1`. -/
theorem draw_twice_blank_sprite :
    ∃ m m1 m2, run 0 1 (setup (rom draw_blank_twice_program)) = .ok m ∧
      (∀ k, m.screen.pixel k = 0) ∧
      m.emulator.memory_register + 1 ≤ 4096 ∧
      fetch m.emulator = .ok (opcode 0xD 0 0 1) ∧
      execute_instruction 0 m = .ok (true, m1) ∧
      fetch m1.emulator = .ok (opcode 0xD 0 0 1) ∧
      m1.emulator.registers 0 = m.emulator.registers 0 ∧
      m1.emulator.memory_register = m.emulator.memory_register ∧
      m1.emulator.memory m1.emulator.memory_register =
        m.emulator.memory m.emulator.memory_register ∧
      execute_instruction 0 m1 = .ok (true, m2) ∧
      m2.emulator.registers 0xF = 0 :=
  ⟨final_state (run 0 1 (setup (rom draw_blank_twice_program))) (setup (rom [])),
    final_state (run 0 2 (setup (rom draw_blank_twice_program))) (setup (rom [])),
    final_state (run 0 3 (setup (rom draw_blank_twice_program))) (setup (rom [])),
    rfl, fun _ => rfl, by decide, rfl, rfl, rfl, rfl, rfl, rfl, rfl, rfl⟩

/-! ## The flag register as destination -/

/-- C20: for every state and register index `y`, after `8Fy4`, `8Fy5` or `8Fy7` the register
`VF` holds the flag computed from the operands before the step (carry of `VF + Vy`, no borrow
of `VF - Vy`, no borrow of `Vy - VF`), a value `0` or `1`, and not the arithmetic result. -/
theorem flag_write_wins (rand : Nat) (m : Machine) (y : Nat) (hy : y < 16) :
    (fetch m.emulator = .ok (opcode 8 0xF y 4) →
      ∃ m1, execute_instruction rand m = .ok (true, m1) ∧
        m1.emulator.registers 0xF =
          (if m.emulator.registers 0xF + m.emulator.registers y > 255 then 1 else 0)) ∧
    (fetch m.emulator = .ok (opcode 8 0xF y 5) →
      ∃ m1, execute_instruction rand m = .ok (true, m1) ∧
        m1.emulator.registers 0xF =
          (if m.emulator.registers 0xF ≥ m.emulator.registers y then 1 else 0)) ∧
    (fetch m.emulator = .ok (opcode 8 0xF y 7) →
      ∃ m1, execute_instruction rand m = .ok (true, m1) ∧
        m1.emulator.registers 0xF =
          (if m.emulator.registers y ≥ m.emulator.registers 0xF then 1 else 0)) := by
  refine ⟨fun hfetch => ?_, fun hfetch => ?_, fun hfetch => ?_⟩
  · rw [execute_instruction_of_fetch rand m _ hfetch]
    simp only [execute_case, section0_eq, section1_eq, section2_eq, section3_eq,
      opcode_section0 (by decide : 8 < 16) (by decide : 0xF < 16) hy (by decide : 4 < 16),
      opcode_section1 (by decide : 0xF < 16) hy (by decide : 4 < 16),
      opcode_section2 hy (by decide : 4 < 16), opcode_section3 (by decide : 4 < 16)]
    exact ⟨_, rfl, by simp [write, c_bool]⟩
  · rw [execute_instruction_of_fetch rand m _ hfetch]
    simp only [execute_case, section0_eq, section1_eq, section2_eq, section3_eq,
      opcode_section0 (by decide : 8 < 16) (by decide : 0xF < 16) hy (by decide : 5 < 16),
      opcode_section1 (by decide : 0xF < 16) hy (by decide : 5 < 16),
      opcode_section2 hy (by decide : 5 < 16), opcode_section3 (by decide : 5 < 16)]
    exact ⟨_, rfl, by simp [write, c_bool]⟩
  · rw [execute_instruction_of_fetch rand m _ hfetch]
    simp only [execute_case, section0_eq, section1_eq, section2_eq, section3_eq,
      opcode_section0 (by decide : 8 < 16) (by decide : 0xF < 16) hy (by decide : 7 < 16),
      opcode_section1 (by decide : 0xF < 16) hy (by decide : 7 < 16),
      opcode_section2 hy (by decide : 7 < 16), opcode_section3 (by decide : 7 < 16)]
    exact ⟨_, rfl, by simp [write, c_bool]⟩

/-- The witness of C20: in the program `6F05 6003 8F04` the step on `8F04` runs with `VF = 5`
and `V0 = 3`; the sum is `8`, and `VF` ends as `0`, the carry. -/
theorem flag_write_wins_scenario :
    ∃ m2 m3, run 0 2 (setup (rom flag_add_program)) = .ok m2 ∧
      m2.emulator.registers 0xF = 5 ∧ m2.emulator.registers 0 = 3 ∧
      execute_instruction 0 m2 = .ok (true, m3) ∧ m3.emulator.registers 0xF = 0 := by
  obtain ⟨m3, hstep, hflag⟩ :=
    (flag_write_wins 0
      (final_state (run 0 2 (setup (rom flag_add_program))) (setup (rom []))) 0
      (by decide)).1 rfl
  exact ⟨_, m3, rfl, rfl, rfl, hstep, hflag.trans rfl⟩

/-! ## Bitwise instructions -/

/-- C18: for every state and register indices `x`, `y` (the registers holding bytes), a step
on `8xy1`, `8xy2` or `8xy3` leaves `VF` equal to `0`, leaves `Vx` (when `x` is not `F`) equal
to `Vx OR Vy`, `Vx AND Vy`, `Vx XOR Vy` of the values before the step, and leaves every
register other than `Vx` and `VF` unchanged. -/
theorem execute_bitwise (rand : Nat) (m : Machine) (x y : Nat) (hx : x < 16) (hy : y < 16)
    (hVx : m.emulator.registers x < 256) (hVy : m.emulator.registers y < 256) :
    (fetch m.emulator = .ok (opcode 8 x y 1) →
      ∃ m1, execute_instruction rand m = .ok (true, m1) ∧
        m1.emulator.registers 0xF = 0 ∧
        (x ≠ 0xF → m1.emulator.registers x =
          m.emulator.registers x ||| m.emulator.registers y) ∧
        ∀ r, r ≠ x → r ≠ 0xF → m1.emulator.registers r = m.emulator.registers r) ∧
    (fetch m.emulator = .ok (opcode 8 x y 2) →
      ∃ m1, execute_instruction rand m = .ok (true, m1) ∧
        m1.emulator.registers 0xF = 0 ∧
        (x ≠ 0xF → m1.emulator.registers x =
          m.emulator.registers x &&& m.emulator.registers y) ∧
        ∀ r, r ≠ x → r ≠ 0xF → m1.emulator.registers r = m.emulator.registers r) ∧
    (fetch m.emulator = .ok (opcode 8 x y 3) →
      ∃ m1, execute_instruction rand m = .ok (true, m1) ∧
        m1.emulator.registers 0xF = 0 ∧
        (x ≠ 0xF → m1.emulator.registers x =
          m.emulator.registers x ^^^ m.emulator.registers y) ∧
        ∀ r, r ≠ x → r ≠ 0xF → m1.emulator.registers r = m.emulator.registers r) := by
  have hor : (m.emulator.registers x ||| m.emulator.registers y) % 256 =
      m.emulator.registers x ||| m.emulator.registers y :=
    Nat.mod_eq_of_lt (Nat.or_lt_two_pow (n := 8) hVx hVy)
  have hand : (m.emulator.registers x &&& m.emulator.registers y) % 256 =
      m.emulator.registers x &&& m.emulator.registers y :=
    Nat.mod_eq_of_lt (Nat.lt_of_le_of_lt Nat.and_le_left hVx)
  have hxor : (m.emulator.registers x ^^^ m.emulator.registers y) % 256 =
      m.emulator.registers x ^^^ m.emulator.registers y :=
    Nat.mod_eq_of_lt (Nat.xor_lt_two_pow (n := 8) hVx hVy)
  refine ⟨fun hfetch => ?_, fun hfetch => ?_, fun hfetch => ?_⟩
  · rw [execute_instruction_of_fetch rand m _ hfetch]
    simp only [execute_case, section0_eq, section1_eq, section2_eq, section3_eq,
      opcode_section0 (by decide : 8 < 16) hx hy (by decide : 1 < 16),
      opcode_section1 hx hy (by decide : 1 < 16), opcode_section2 hy (by decide : 1 < 16),
      opcode_section3 (by decide : 1 < 16), hor]
    refine ⟨_, rfl, by simp [write, FALSE], fun hxF => ?_, fun r hrx hrF => ?_⟩
    · simp [write, hxF]
    · simp [write, hrx, hrF]
  · rw [execute_instruction_of_fetch rand m _ hfetch]
    simp only [execute_case, section0_eq, section1_eq, section2_eq, section3_eq,
      opcode_section0 (by decide : 8 < 16) hx hy (by decide : 2 < 16),
      opcode_section1 hx hy (by decide : 2 < 16), opcode_section2 hy (by decide : 2 < 16),
      opcode_section3 (by decide : 2 < 16), hand]
    refine ⟨_, rfl, by simp [write, FALSE], fun hxF => ?_, fun r hrx hrF => ?_⟩
    · simp [write, hxF]
    · simp [write, hrx, hrF]
  · rw [execute_instruction_of_fetch rand m _ hfetch]
    simp only [execute_case, section0_eq, section1_eq, section2_eq, section3_eq,
      opcode_section0 (by decide : 8 < 16) hx hy (by decide : 3 < 16),
      opcode_section1 hx hy (by decide : 3 < 16), opcode_section2 hy (by decide : 3 < 16),
      opcode_section3 (by decide : 3 < 16), hxor]
    refine ⟨_, rfl, by simp [write, FALSE], fun hxF => ?_, fun r hrx hrF => ?_⟩
    · simp [write, hxF]
    · simp [write, hrx, hrF]

/-- The witness of C18: in the program `600C 610A 8011` the step on `8011` runs with
`V0 = 0x0C`, `V1 = 0x0A` and ends with `V0 = 0x0E`, `VF = 0` and `V1` unchanged. -/
theorem execute_bitwise_scenario :
    ∃ m2 m3, run 0 2 (setup (rom or_program)) = .ok m2 ∧
      m2.emulator.registers 0 = 0x0C ∧ m2.emulator.registers 1 = 0x0A ∧
      execute_instruction 0 m2 = .ok (true, m3) ∧
      m3.emulator.registers 0 = 0x0E ∧ m3.emulator.registers 0xF = 0 ∧
      m3.emulator.registers 1 = 0x0A := by
  obtain ⟨m3, hstep, hflag, hval, hrest⟩ :=
    (execute_bitwise 0 (final_state (run 0 2 (setup (rom or_program))) (setup (rom []))) 0 1
      (by decide) (by decide) (by decide) (by decide)).1 rfl
  exact ⟨_, m3, rfl, rfl, rfl, hstep, (hval (by decide)).trans rfl, hflag,
    (hrest 1 (by decide) (by decide)).trans rfl⟩

/-! ## Decimal digits: `Fx33` -/

/-- C17: for every state whose `Vx` is a byte and whose index register `I` has
`I + 2 < 4096`, the step on `Fx33` is defined and leaves in `memory[I]`, `memory[I + 1]`,
`memory[I + 2]` digits `h`, `t`, `o`, each at most `9`, with `100 * h + 10 * t + o` equal to
`Vx`; every other memory byte, every register and the index register are unchanged. -/
theorem execute_Fx33 (rand : Nat) (m : Machine) (x : Nat) (hx : x < 16)
    (hVx : m.emulator.registers x < 256) (hI : m.emulator.memory_register + 2 < 4096)
    (hfetch : fetch m.emulator = .ok (opcode 0xF x 3 3)) :
    ∃ m1, execute_instruction rand m = .ok (true, m1) ∧
      m1.emulator.memory m.emulator.memory_register ≤ 9 ∧
      m1.emulator.memory (m.emulator.memory_register + 1) ≤ 9 ∧
      m1.emulator.memory (m.emulator.memory_register + 2) ≤ 9 ∧
      100 * m1.emulator.memory m.emulator.memory_register +
          10 * m1.emulator.memory (m.emulator.memory_register + 1) +
          m1.emulator.memory (m.emulator.memory_register + 2) =
        m.emulator.registers x ∧
      (∀ k, k < m.emulator.memory_register ∨ m.emulator.memory_register + 2 < k →
        m1.emulator.memory k = m.emulator.memory k) ∧
      m1.emulator.registers = m.emulator.registers ∧
      m1.emulator.memory_register = m.emulator.memory_register := by
  obtain ⟨memory1, hstore, hmem⟩ :=
    store_loop_ok
      (fun i =>
        (if i = 0 then m.emulator.registers x / 100
          else if i = 1 then m.emulator.registers x / 10 % 10
          else m.emulator.registers x % 10) % 256)
      m.emulator.memory_register 3 m.emulator.memory (by simp only [MEMORY_SIZE]; omega)
  rw [execute_instruction_of_fetch rand m _ hfetch]
  simp only [execute_case, section0_eq, section1_eq, low_byte_eq,
    opcode_section0 (by decide : 0xF < 16) hx (by decide : 3 < 16) (by decide : 3 < 16),
    opcode_section1 hx (by decide : 3 < 16) (by decide : 3 < 16),
    opcode_low_byte (by decide : 3 < 16) (by decide : 3 < 16), hstore]
  have h0 : memory1 m.emulator.memory_register = m.emulator.registers x / 100 := by
    rw [hmem, if_pos (by omega)]
    simp only [Nat.sub_self, if_pos]
    omega
  have h1 : memory1 (m.emulator.memory_register + 1) = m.emulator.registers x / 10 % 10 := by
    rw [hmem, if_pos (by omega)]
    simp only [Nat.add_sub_cancel_left]
    simp only [if_neg (by decide : ¬ (1 = 0)), if_pos]
    omega
  have h2 : memory1 (m.emulator.memory_register + 2) = m.emulator.registers x % 10 := by
    rw [hmem, if_pos (by omega)]
    simp only [Nat.add_sub_cancel_left]
    simp only [if_neg (by decide : ¬ (2 = 0)), if_neg (by decide : ¬ (2 = 1))]
    omega
  refine ⟨_, rfl, ?_, ?_, ?_, ?_, fun k hk => ?_, rfl, rfl⟩
  · show memory1 m.emulator.memory_register ≤ 9
    omega
  · show memory1 (m.emulator.memory_register + 1) ≤ 9
    omega
  · show memory1 (m.emulator.memory_register + 2) ≤ 9
    omega
  · show 100 * memory1 m.emulator.memory_register +
        10 * memory1 (m.emulator.memory_register + 1) +
        memory1 (m.emulator.memory_register + 2) = m.emulator.registers x
    omega
  · show memory1 k = m.emulator.memory k
    rw [hmem, if_neg (by omega)]

/-- The witness of C17: in the program `60EA A300 F033` the step on `F033` runs with
`V0 = 234` and `I = 0x300` and leaves the bytes `2`, `3`, `4` at `0x300 .. 0x302`. -/
theorem execute_Fx33_scenario :
    ∃ m2 m3, run 0 2 (setup (rom bcd_program)) = .ok m2 ∧
      m2.emulator.registers 0 = 234 ∧ m2.emulator.memory_register = 0x300 ∧
      execute_instruction 0 m2 = .ok (true, m3) ∧
      m3.emulator.memory 0x300 = 2 ∧ m3.emulator.memory 0x301 = 3 ∧
      m3.emulator.memory 0x302 = 4 ∧
      100 * m3.emulator.memory 0x300 + 10 * m3.emulator.memory 0x301 +
        m3.emulator.memory 0x302 = 234 := by
  obtain ⟨m3, hstep, -, -, -, hsum, -, -, -⟩ :=
    execute_Fx33 0 (final_state (run 0 2 (setup (rom bcd_program))) (setup (rom []))) 0
      (by decide) (by decide) (by decide) rfl
  have hm3 : m3 = final_state (run 0 3 (setup (rom bcd_program))) (setup (rom [])) :=
    (Prod.mk.inj (Except.ok.inj (hstep.symm.trans rfl))).2
  subst hm3
  exact ⟨_, _, rfl, rfl, rfl, hstep, rfl, rfl, rfl, hsum⟩

/-! ## Return: `00EE` -/

/-- C14 as the code has it: for every state with stack pointer in `[1, 16)`, the step on
`00EE` is defined, sets the stack pointer to `sp - 1`, and leaves the program counter equal
to the value stored in the stack at that new pointer plus `2` (modulo `2^16`): the advance
by `inst_increment` is added after the load. -/
theorem execute_00EE (rand : Nat) (m : Machine) (hsp1 : 1 ≤ m.emulator.stack_pointer)
    (hsp : m.emulator.stack_pointer < 16)
    (hfetch : fetch m.emulator = .ok (opcode 0 0 0xE 0xE)) :
    ∃ m1, execute_instruction rand m = .ok (true, m1) ∧
      m1.emulator.stack_pointer = m.emulator.stack_pointer - 1 ∧
      m1.emulator.program_counter =
        (m.emulator.stack (m.emulator.stack_pointer - 1) + 2) % 65536 := by
  have hsp2 : uint8 (Int.tmod ((m.emulator.stack_pointer : Int) - 1) (STACK_SIZE : Int)) =
      m.emulator.stack_pointer - 1 := by
    rw [Int.tmod_eq_emod (by omega) (by simp [STACK_SIZE])]
    simp only [uint8, STACK_SIZE]
    omega
  have hin : ¬ STACK_SIZE ≤ m.emulator.stack_pointer - 1 := by
    simp only [STACK_SIZE]; omega
  rw [execute_instruction_of_fetch rand m _ hfetch]
  simp only [execute_case, section0_eq, section2_eq, section3_eq,
    opcode_section0 (by decide : 0 < 16) (by decide : 0 < 16) (by decide : 0xE < 16)
      (by decide : 0xE < 16),
    opcode_section2 (by decide : 0xE < 16) (by decide : 0xE < 16),
    opcode_section3 (by decide : 0xE < 16), hsp2, if_neg hin, if_pos]
  exact ⟨_, rfl, rfl, rfl⟩

/-- The witness of `execute_00EE`: in the program `2204 0000 00EE` the call leaves the stack
pointer at `1` with `0x200` in stack slot `0`; the return sets the stack pointer to `0` and
the program counter to `0x202`. -/
theorem execute_00EE_scenario :
    ∃ m1 m2, execute_instruction 0 (setup (rom call_return_program)) = .ok (true, m1) ∧
      m1.emulator.stack_pointer = 1 ∧ m1.emulator.stack 0 = 0x200 ∧
      execute_instruction 0 m1 = .ok (true, m2) ∧
      m2.emulator.stack_pointer = 0 ∧ m2.emulator.program_counter = 0x202 := by
  obtain ⟨m2, hstep, hsp, hpc⟩ :=
    execute_00EE 0 (final_state (run 0 1 (setup (rom call_return_program))) (setup (rom [])))
      (by decide) (by decide) rfl
  exact ⟨_, m2, rfl, rfl, rfl, hstep, hsp.trans rfl, hpc.trans rfl⟩

/-- C14 fails as stated: after the call of the program `2204 0000 00EE` the stack pointer is
`1` and `00EE` is fetched; the return leaves the stack pointer at `0`, where the stack holds
`0x200`, but the program counter is `0x202`, two more than the stored value. And at stack
pointer `0` (program `00EE`) the step has no defined result: it indexes the stack at `255`. -/
theorem return_advances_past_stored_address :
    (∃ m1 m2, execute_instruction 0 (setup (rom call_return_program)) = .ok (true, m1) ∧
      m1.emulator.stack_pointer = 1 ∧
      fetch m1.emulator = .ok (opcode 0 0 0xE 0xE) ∧
      execute_instruction 0 m1 = .ok (true, m2) ∧
      m2.emulator.stack_pointer = 0 ∧ m2.emulator.stack m2.emulator.stack_pointer = 0x200 ∧
      m2.emulator.program_counter = 0x202) ∧
    ((setup (rom return_program)).emulator.stack_pointer = 0 ∧
      fetch (setup (rom return_program)).emulator = .ok (opcode 0 0 0xE 0xE) ∧
      run 0 1 (setup (rom return_program)) = .error (.stack_index 255)) :=
  ⟨⟨final_state (run 0 1 (setup (rom call_return_program))) (setup (rom [])),
      final_state (run 0 2 (setup (rom call_return_program))) (setup (rom [])),
      rfl, rfl, rfl, rfl, rfl, rfl, rfl⟩,
    ⟨rfl, rfl, rfl⟩⟩

/-! ## Fetch -/

/-- The word the fetch builds from two bytes. -/
theorem fetch_word_eq (a b : Nat) (ha : a < 256) (hb : b < 256) :
    ((a <<< 8) % 65536 ||| b) % 65536 = a * 256 + b := by
  have h1 : a <<< 8 = 2 ^ 8 * a := by rw [Nat.shiftLeft_eq, Nat.mul_comm]
  have h2 : (2 ^ 8 * a) % 65536 = 2 ^ 8 * a := Nat.mod_eq_of_lt (by omega)
  rw [h1, h2, ← Nat.mul_add_lt_is_or (by omega : b < 2 ^ 8) a]
  omega

/-- C15 as the code has it: in a state whose memory holds bytes, when
`program_counter + 1 < 4096` the fetch is defined and the fetched word is
`memory[pc] * 256 + memory[pc + 1]`; when `program_counter + 1 >= 4096` the code makes no
check: the fetch indexes the memory at an index `i >= 4096`, outside the array, and the step
has no defined result (no value is returned and nothing is promised about the state). -/
theorem fetch_bounds (rand : Nat) (m : Machine)
    (hbytes : ∀ a, a < MEMORY_SIZE → m.emulator.memory a < 256) :
    (m.emulator.program_counter + 1 < 4096 →
      fetch m.emulator =
        .ok (m.emulator.memory m.emulator.program_counter * 256 +
          m.emulator.memory (m.emulator.program_counter + 1))) ∧
    (m.emulator.program_counter + 1 ≥ 4096 →
      ∃ i, i ≥ 4096 ∧ fetch m.emulator = .error (.memory_index i) ∧
        execute_instruction rand m = .error (.memory_index i)) := by
  constructor
  · intro hpc
    have h1 : ¬ MEMORY_SIZE ≤ m.emulator.program_counter := by
      simp only [MEMORY_SIZE]; omega
    have h2 : ¬ MEMORY_SIZE ≤ m.emulator.program_counter + 1 := by
      simp only [MEMORY_SIZE]; omega
    simp only [fetch, if_neg h1, if_neg h2]
    rw [fetch_word_eq _ _ (hbytes _ (by simp only [MEMORY_SIZE]; omega))
      (hbytes _ (by simp only [MEMORY_SIZE]; omega))]
  · intro hpc
    by_cases h1 : MEMORY_SIZE ≤ m.emulator.program_counter
    · refine ⟨m.emulator.program_counter, by simp only [MEMORY_SIZE] at h1; omega, ?_, ?_⟩
      · simp only [fetch, if_pos h1]
      · simp only [execute_instruction, fetch, if_pos h1]
    · have h2 : MEMORY_SIZE ≤ m.emulator.program_counter + 1 := by
        simp only [MEMORY_SIZE]; omega
      refine ⟨m.emulator.program_counter + 1, by omega, ?_, ?_⟩
      · simp only [fetch, if_neg h1, if_pos h2]
      · simp only [execute_instruction, fetch, if_neg h1, if_pos h2]

/-- Every entry of a list of bytes, and the default `0`, is a byte. -/
theorem getD_lt_of_forall (l : List Nat) (h : ∀ b ∈ l, b < 256) (i : Nat) :
    l.getD i 0 < 256 := by
  by_cases hi : i < l.length
  · rw [List.getD_eq_getElem l 0 hi]
    exact h _ (List.getElem_mem hi)
  · rw [List.getD_eq_default l 0 (by omega)]
    decide

/-- The memory `setup` builds from a ROM of bytes holds bytes. -/
theorem setup_memory_lt (bytes : List Nat) (h : ∀ b ∈ bytes, b < 256) (a : Nat) :
    (setup (rom bytes)).emulator.memory a < 256 := by
  simp only [setup, load_game, rom]
  split
  · exact getD_lt_of_forall bytes h _
  · split
    · exact getD_lt_of_forall CHARACTER_SET (by decide) _
    · decide

/-- The witness of `fetch_bounds`: the state `setup` builds for the program `6005 6103 8014`
has the program counter `0x200` and the fetch gives `0x60 * 256 + 0x05`; the state `setup`
builds for the program `1FFF` reaches the program counter `0xFFF` in one step, and the next
fetch indexes the memory at `4096`. -/
theorem fetch_bounds_scenario :
    fetch (setup (rom add_program)).emulator = .ok (0x60 * 256 + 0x05) ∧
      ∃ m1, execute_instruction 0 (setup (rom jump_to_end_program)) = .ok (true, m1) ∧
        m1.emulator.program_counter = 0xFFF ∧
        fetch m1.emulator = .error (.memory_index 4096) := by
  refine ⟨((fetch_bounds 0 (setup (rom add_program))
      (fun a _ => setup_memory_lt add_program (by decide) a)).1 (by decide)).trans rfl, ?_⟩
  obtain ⟨i, -, hfetch, -⟩ :=
    (fetch_bounds 0
      (final_state (run 0 1 (setup (rom jump_to_end_program))) (setup (rom [])))
      (fun a _ => setup_memory_lt jump_to_end_program (by decide) a)).2 (by decide)
  exact ⟨_, rfl, rfl, rfl⟩

/-- C15 fails as stated: the program `1FFF` reaches the program counter `0xFFF`, so that
`program_counter + 1 >= 4096`; the next step reads `memory[4095]` and then indexes the memory
at `4096`, outside the array, without any check: no error is reported, the step has no
defined result, and in particular it does not return with the state unchanged. -/
theorem fetch_past_end_unchecked :
    ∃ m1, execute_instruction 0 (setup (rom jump_to_end_program)) = .ok (true, m1) ∧
      m1.emulator.program_counter = 0xFFF ∧
      m1.emulator.program_counter + 1 ≥ 4096 ∧
      execute_instruction 0 m1 = .error (.memory_index 4096) ∧
      ∀ v, execute_instruction 0 m1 ≠ .ok (v, m1) := by
  refine ⟨final_state (run 0 1 (setup (rom jump_to_end_program))) (setup (rom [])),
    rfl, rfl, by decide, rfl, fun v h => ?_⟩
  have herr : execute_instruction 0
      (final_state (run 0 1 (setup (rom jump_to_end_program))) (setup (rom []))) =
      .error (.memory_index 4096) := rfl
  rw [herr] at h
  cases h

/-! ## The display outside clear and draw -/

/-- A defined `switch` on a word that is neither `0nE0` nor `Dxyn` leaves the display. -/
theorem execute_case_screen (rand inst : Nat) (m m1 : Machine) (v : Bool) (inc : Nat)
    (h : execute_case rand inst m = .ok (m1, v, inc))
    (hclear : ¬ (inst / 4096 % 16 = 0x0 ∧ inst / 16 % 16 = 0xE ∧ inst % 16 = 0x0))
    (hdraw : inst / 4096 % 16 ≠ 0xD) :
    m1.screen = m.screen := by
  unfold execute_case at h
  simp only [section0_eq, section1_eq, section2_eq, section3_eq, low_byte_eq] at h
  repeat' split at h
  all_goals
    first
    | (simp only [Except.ok.injEq, Prod.mk.injEq] at h
       obtain ⟨rfl, -, -⟩ := h
       first
       | rfl
       | omega)
    | (simp only [reduceCtorEq] at h)

/-- Every step with a defined result on a word that is neither `0nE0` (any second nibble
`n`) nor `Dxyn` leaves the display unchanged. -/
theorem display_frame (rand : Nat) (m m1 : Machine) (v : Bool) (inst : Nat)
    (hfetch : fetch m.emulator = .ok inst)
    (hclear : ¬ (inst / 4096 % 16 = 0x0 ∧ inst / 16 % 16 = 0xE ∧ inst % 16 = 0x0))
    (hdraw : inst / 4096 % 16 ≠ 0xD)
    (h : execute_instruction rand m = .ok (v, m1)) :
    m1.screen = m.screen := by
  rw [execute_instruction_of_fetch rand m _ hfetch] at h
  split at h
  · simp only [reduceCtorEq] at h
  · rename_i m2 v2 inc hcase
    simp only [Except.ok.injEq, Prod.mk.injEq] at h
    obtain ⟨-, rfl⟩ := h
    exact execute_case_screen rand inst m m2 v2 inc hcase hclear hdraw

/-- C19, the code at a failing input: after `D001` pixel `0` is on; the word `0FE0`, which is
neither `00E0` nor a `Dxyn`, is fetched next, and the step on it returns `true` and turns
pixel `0` off (it runs the case of `00E0`). -/
theorem execute_0FE0_changes_display :
    ∃ m1 m2, execute_instruction 0 (setup (rom draw_then_0FE0_program)) = .ok (true, m1) ∧
      m1.screen.pixel 0 = 1 ∧
      fetch m1.emulator = .ok 0x0FE0 ∧ (0x0FE0 : Nat) ≠ 0x00E0 ∧ (0x0FE0 : Nat) / 4096 ≠ 0xD ∧
      execute_instruction 0 m1 = .ok (true, m2) ∧
      m2.screen.pixel 0 = 0 :=
  ⟨final_state (run 0 1 (setup (rom draw_then_0FE0_program))) (setup (rom [])),
    final_state (run 0 2 (setup (rom draw_then_0FE0_program))) (setup (rom [])),
    rfl, rfl, rfl, by decide, by decide, rfl, rfl⟩

/-! ## The font in memory -/

/-- A defined store loop leaves the bytes below `memory_register`. -/
theorem store_loop_below (value : Nat → Nat) (a : Nat) :
    ∀ (count : Nat) (memory memory1 : Nat → Nat),
      store_loop value a count memory = .ok memory1 → ∀ k, k < a → memory1 k = memory k := by
  intro count
  induction count with
  | zero =>
    intro memory memory1 h k _
    simp only [store_loop, Except.ok.injEq] at h
    rw [h]
  | succ n ih =>
    intro memory memory1 h k hk
    simp only [store_loop] at h
    split at h
    · simp only [reduceCtorEq] at h
    · rename_i memory2 hloop
      split at h
      · simp only [reduceCtorEq] at h
      · simp only [Except.ok.injEq] at h
        rw [← h, ← ih memory memory2 hloop k hk]
        simp only [write, if_neg (by omega : ¬ k = a + n)]

/-- A defined `switch` that is not an `Fx33` or `Fx55` with the index register inside the
font leaves the bytes `[0, 80)` of the memory. -/
theorem execute_case_font (rand inst : Nat) (m m1 : Machine) (v : Bool) (inc : Nat)
    (h : execute_case rand inst m = .ok (m1, v, inc))
    (hsafe : ¬ writes_font m.emulator inst) :
    ∀ i, i < CHARACTER_SET_SIZE → m1.emulator.memory i = m.emulator.memory i := by
  simp only [writes_font, CHARACTER_SET_SIZE] at hsafe ⊢
  unfold execute_case at h
  simp only [section0_eq, section1_eq, section2_eq, section3_eq, low_byte_eq] at h
  repeat' split at h
  all_goals
    first
    | (simp only [Except.ok.injEq, Prod.mk.injEq] at h
       obtain ⟨rfl, -, -⟩ := h
       intro i hi
       first
       | rfl
       | exact store_loop_below _ _ _ _ _ ‹_› i (by omega))
    | (simp only [reduceCtorEq] at h)

/-- Every step with a defined result that is not an `Fx33` or `Fx55` with the index register
inside the font leaves the bytes `[0, 80)` of the memory. -/
theorem execute_instruction_font (rand : Nat) (m m1 : Machine) (inst : Nat) (v : Bool)
    (hfetch : fetch m.emulator = .ok inst) (hsafe : ¬ writes_font m.emulator inst)
    (hstep : execute_instruction rand m = .ok (v, m1)) :
    ∀ i, i < CHARACTER_SET_SIZE → m1.emulator.memory i = m.emulator.memory i := by
  rw [execute_instruction_of_fetch rand m _ hfetch] at hstep
  split at hstep
  · simp only [reduceCtorEq] at hstep
  · rename_i m2 v2 inc hcase
    simp only [Except.ok.injEq, Prod.mk.injEq] at hstep
    obtain ⟨-, rfl⟩ := hstep
    exact execute_case_font rand inst m m2 v2 inc hcase hsafe

/-- C16 as the code has it: in every state reached from the state `setup` builds by steps
none of which is an `Fx33` or `Fx55` with the index register below `80`, the memory bytes
`[0, 80)` equal the font table `CHARACTER_SET`; and a further step from such a state that is
not an `Fx33` or `Fx55` with the index register below `80` leaves these bytes unchanged. -/
theorem font_preserved (buffer : Nat → Nat) (m : Machine) (h : font_safe_reachable buffer m) :
    (∀ i, i < CHARACTER_SET_SIZE → m.emulator.memory i = CHARACTER_SET.getD i 0) ∧
      ∀ (rand inst : Nat) (v : Bool) (m1 : Machine), fetch m.emulator = .ok inst →
        ¬ writes_font m.emulator inst → execute_instruction rand m = .ok (v, m1) →
        ∀ i, i < CHARACTER_SET_SIZE → m1.emulator.memory i = m.emulator.memory i := by
  refine ⟨?_, fun rand inst v m1 hfetch hsafe hstep =>
    execute_instruction_font rand m m1 inst v hfetch hsafe hstep⟩
  induction h with
  | start =>
    intro i hi
    have hlow : ¬ (MEMORY_PROGRAM_START ≤ i ∧ i < MEMORY_SIZE) := by
      simp only [CHARACTER_SET_SIZE] at hi
      simp only [MEMORY_PROGRAM_START]
      omega
    simp only [setup, load_game, if_neg hlow, if_pos hi]
  | step rand m inst v m1 _ hfetch hsafe hstep ih =>
    intro i hi
    exact (execute_instruction_font rand m m1 inst v hfetch hsafe hstep i hi).trans (ih i hi)

/-- The witness of `font_preserved`: the state after the four steps `6007 6109 A300 F155`,
the last of them an `Fx55` with `I = 0x300`, is reached without a write into the font, and
its memory bytes `0` and `79` are the font bytes `0xF0` and `0x80`. -/
theorem font_preserved_scenario :
    ∃ m4, run 0 4 (setup (rom store_load_program)) = .ok m4 ∧
      font_safe_reachable (rom store_load_program) m4 ∧
      m4.emulator.memory 0 = 0xF0 ∧ m4.emulator.memory 79 = 0x80 := by
  have h1 : font_safe_reachable (rom store_load_program)
      (final_state (run 0 1 (setup (rom store_load_program))) (setup (rom []))) :=
    .step 0 _ 0x6007 true _ .start rfl (by decide) rfl
  have h2 : font_safe_reachable (rom store_load_program)
      (final_state (run 0 2 (setup (rom store_load_program))) (setup (rom []))) :=
    .step 0 _ 0x6109 true _ h1 rfl (by decide) rfl
  have h3 : font_safe_reachable (rom store_load_program)
      (final_state (run 0 3 (setup (rom store_load_program))) (setup (rom []))) :=
    .step 0 _ 0xA300 true _ h2 rfl (by decide) rfl
  have h4 : font_safe_reachable (rom store_load_program)
      (final_state (run 0 4 (setup (rom store_load_program))) (setup (rom []))) :=
    .step 0 _ 0xF155 true _ h3 rfl (by decide) rfl
  exact ⟨_, rfl, h4, ((font_preserved _ _ h4).1 0 (by decide)).trans rfl,
    ((font_preserved _ _ h4).1 79 (by decide)).trans rfl⟩

/-- C16 fails as stated: the program `6012 A000 F055` sets `V0 = 0x12` and `I = 0` and stores
`V0` at `memory[0]`; the state after the three steps is reached from the state `setup`
builds, where `memory[0]` is the font byte `0xF0`, and its `memory[0]` is `0x12`. -/
theorem font_overwritten :
    ∃ m3, run 0 3 (setup (rom font_overwrite_program)) = .ok m3 ∧
      (setup (rom font_overwrite_program)).emulator.memory 0 = 0xF0 ∧
      CHARACTER_SET.getD 0 0 = 0xF0 ∧
      m3.emulator.memory 0 = 0x12 :=
  ⟨final_state (run 0 3 (setup (rom font_overwrite_program))) (setup (rom [])),
    rfl, rfl, rfl, rfl⟩

/-! ## Sprite placement, collision flag, clear then draw -/

theorem sprite_bit_cases (spr j : Nat) : sprite_bit spr j = 0 ∨ sprite_bit spr j = 1 := by
  unfold sprite_bit c_bool
  split
  · exact Or.inr rfl
  · exact Or.inl rfl

theorem sprite_bit_ne_zero (spr j : Nat) :
    sprite_bit spr j ≠ 0 ↔ (spr >>> (7 - j)) &&& 0x1 = 1 := by
  unfold sprite_bit c_bool
  split <;> simp_all

/-- The set sprite bits on the display are the covered pixels whose sprite pixel is on. -/
theorem sprite_sets_iff (memory : Nat → Nat) (a x y n k : Nat) :
    sprite_sets memory a x y n k ↔
      (in_sprite x y 0 n k ∧ sprite_value memory a x y k ≠ 0) := by
  constructor
  · rintro ⟨i, hi, j, hj, hcol, hrow, rfl, hbit⟩
    simp only [SCREEN_WIDTH, SCREEN_HEIGHT] at hcol hrow
    have hdiv : (SCREEN_WIDTH * (y + i) + (x + j)) / SCREEN_WIDTH = y + i := by
      simp only [SCREEN_WIDTH]; omega
    have hmod : (SCREEN_WIDTH * (y + i) + (x + j)) % SCREEN_WIDTH = x + j := by
      simp only [SCREEN_WIDTH]; omega
    refine ⟨?_, ?_⟩
    · simp only [in_sprite, hdiv, hmod, SCREEN_HEIGHT]
      omega
    · simp only [sprite_value, hdiv, hmod, Nat.add_sub_cancel_left]
      exact (sprite_bit_ne_zero _ _).2 hbit
  · rintro ⟨hin, hval⟩
    simp only [in_sprite, SCREEN_WIDTH, SCREEN_HEIGHT] at hin
    refine ⟨k / SCREEN_WIDTH - y, ?_, k % SCREEN_WIDTH - x, ?_, ?_, ?_, ?_, ?_⟩
    · simp only [SCREEN_WIDTH]; omega
    · simp only [SCREEN_WIDTH]; omega
    · simp only [SCREEN_WIDTH]; omega
    · simp only [SCREEN_WIDTH, SCREEN_HEIGHT]; omega
    · simp only [SCREEN_WIDTH]; omega
    · exact (sprite_bit_ne_zero _ _).1 hval

/-- A coordinate register other than `VF` is read as it was before the step. -/
theorem sprite_column_eq (registers : Nat → Nat) (x : Nat) (hxF : x ≠ 0xF) :
    sprite_column registers x = registers x % 64 := by
  simp only [sprite_column, write, if_neg hxF, SCREEN_WIDTH]

theorem sprite_row_eq (registers : Nat → Nat) (y : Nat) (hyF : y ≠ 0xF) :
    sprite_row registers y = registers y % 32 := by
  simp only [sprite_row, write, if_neg hyF, SCREEN_HEIGHT]

/-- C11 as the code has it: for register indices `x`, `y` other than `F` and `I + n <= 4096`,
the step on `Dxyn` is defined and toggles (XORs with `1`) exactly the pixels at column
`(Vx mod 64) + j` and row `(Vy mod 32) + i` for which bit `7 - j` of sprite byte `i`
(`i < n`, `j < 8`) is `1`, the column is below `64` and the row is below `32`; every other
pixel is unchanged. -/
theorem draw_toggles (rand : Nat) (m : Machine) (x y n : Nat) (hx : x < 16) (hy : y < 16)
    (hn : n < 16) (hxF : x ≠ 0xF) (hyF : y ≠ 0xF)
    (hfetch : fetch m.emulator = .ok (opcode 0xD x y n))
    (hI : m.emulator.memory_register + n ≤ 4096) :
    ∃ m1, execute_instruction rand m = .ok (true, m1) ∧
      ∀ k,
        (sprite_sets m.emulator.memory m.emulator.memory_register
            (m.emulator.registers x % 64) (m.emulator.registers y % 32) n k →
          m1.screen.pixel k = m.screen.pixel k ^^^ 1) ∧
        (¬ sprite_sets m.emulator.memory m.emulator.memory_register
            (m.emulator.registers x % 64) (m.emulator.registers y % 32) n k →
          m1.screen.pixel k = m.screen.pixel k) := by
  obtain ⟨registers1, pixel1, hstep, hpix, -, -⟩ :=
    execute_Dxyn rand m x y n hx hy hn hfetch hI
  rw [sprite_column_eq _ x hxF, sprite_row_eq _ y hyF] at hpix
  refine ⟨_, hstep, fun k => ⟨fun h => ?_, fun h => ?_⟩⟩
  · show pixel1 k = m.screen.pixel k ^^^ 1
    obtain ⟨hin, hval⟩ := (sprite_sets_iff _ _ _ _ _ _).1 h
    have hone : sprite_value m.emulator.memory m.emulator.memory_register
        (m.emulator.registers x % 64) (m.emulator.registers y % 32) k = 1 := by
      rcases sprite_bit_cases
        (m.emulator.memory (m.emulator.memory_register +
          (k / SCREEN_WIDTH - m.emulator.registers y % 32)))
        (k % SCREEN_WIDTH - m.emulator.registers x % 64) with h0 | h1
      · exact absurd h0 hval
      · exact h1
    rw [(hpix k).1 hin, hone]
  · show pixel1 k = m.screen.pixel k
    by_cases hin : in_sprite (m.emulator.registers x % 64) (m.emulator.registers y % 32) 0 n k
    · have hzero : sprite_value m.emulator.memory m.emulator.memory_register
          (m.emulator.registers x % 64) (m.emulator.registers y % 32) k = 0 := by
        by_contra hne
        exact h ((sprite_sets_iff _ _ _ _ _ _).2 ⟨hin, hne⟩)
      rw [(hpix k).1 hin, hzero, Nat.xor_zero]
    · exact (hpix k).2 hin

/-- The witness of `draw_toggles`: in the program `6002 6101 D015` the draw runs with
`V0 = 2`, `V1 = 1` and `I = 0`; the top left pixel of the glyph, at column `2` of row `1`
(index `66`), is toggled from `0` to `1`, and pixel `0` is unchanged. -/
theorem draw_toggles_scenario :
    ∃ m2 m3, run 0 2 (setup (rom draw_glyph_program)) = .ok m2 ∧
      m2.emulator.registers 0 = 2 ∧ m2.emulator.registers 1 = 1 ∧
      execute_instruction 0 m2 = .ok (true, m3) ∧
      m3.screen.pixel 66 = 1 ∧ m3.screen.pixel 0 = 0 := by
  obtain ⟨m3, hstep, hpix⟩ :=
    draw_toggles 0 (final_state (run 0 2 (setup (rom draw_glyph_program))) (setup (rom [])))
      0 1 5 (by decide) (by decide) (by decide) (by decide) (by decide) rfl (by decide)
  exact ⟨_, m3, rfl, rfl, rfl, hstep, ((hpix 66).1 (by decide)).trans rfl,
    ((hpix 0).2 (by decide)).trans rfl⟩

/-- C11 fails as stated. In the program `6120 D011` the draw runs with `V0 = 0`, `V1 = 32`,
`I = 0` and the sprite byte `0xF0`: the row `(V1 mod 64) + 0 = 32` is not below `32`, so no
pixel should change, yet pixel `0` is turned on (the code draws at row `V1 mod 32 = 0`). In
the program `6F01 DF01` the draw runs with `VF = 1`, `V0 = 0`: the columns
`(VF mod 64) + j` of the set bits are `1 .. 4`, yet pixel `0` is turned on and pixel `4` is
left off (the code reads `VF` after it has reset it to `0`). -/
theorem draw_origin_differs :
    (∃ m1 m2, execute_instruction 0 (setup (rom draw_row_32_program)) = .ok (true, m1) ∧
      m1.emulator.registers 0 = 0 ∧ m1.emulator.registers 1 = 32 ∧
      m1.emulator.memory_register = 0 ∧ m1.emulator.memory 0 = 0xF0 ∧
      fetch m1.emulator = .ok (opcode 0xD 0 1 1) ∧
      ¬ (m1.emulator.registers 1 % 64 + 0 < 32) ∧
      m1.screen.pixel 0 = 0 ∧
      execute_instruction 0 m1 = .ok (true, m2) ∧
      m2.screen.pixel 0 = 1) ∧
    (∃ m1 m2, execute_instruction 0 (setup (rom draw_column_VF_program)) = .ok (true, m1) ∧
      m1.emulator.registers 0xF = 1 ∧ m1.emulator.registers 0 = 0 ∧
      m1.emulator.memory_register = 0 ∧ m1.emulator.memory 0 = 0xF0 ∧
      fetch m1.emulator = .ok (opcode 0xD 0xF 0 1) ∧
      m1.screen.pixel 0 = 0 ∧ m1.screen.pixel 4 = 0 ∧
      execute_instruction 0 m1 = .ok (true, m2) ∧
      m2.screen.pixel 0 = 1 ∧ m2.screen.pixel 4 = 0) :=
  ⟨⟨final_state (run 0 1 (setup (rom draw_row_32_program))) (setup (rom [])),
      final_state (run 0 2 (setup (rom draw_row_32_program))) (setup (rom [])),
      rfl, rfl, rfl, rfl, rfl, rfl, by decide, rfl, rfl, rfl⟩,
    ⟨final_state (run 0 1 (setup (rom draw_column_VF_program))) (setup (rom [])),
      final_state (run 0 2 (setup (rom draw_column_VF_program))) (setup (rom [])),
      rfl, rfl, rfl, rfl, rfl, rfl, rfl, rfl, rfl, rfl, rfl⟩⟩

/-- The display `setup` builds has every pixel off. -/
theorem setup_boolean (buffer : Nat → Nat) : boolean_display (setup buffer).screen :=
  fun _ _ => Or.inl rfl

/-- The inner loop of `Dxyn` keeps the pixels `0` or `1`. -/
theorem draw_row_boolean (spr x row count j0 : Nat) (registers pixel : Nat → Nat) (k : Nat)
    (h : pixel k = 0 ∨ pixel k = 1) :
    (draw_row spr x row count j0 (registers, pixel)).2 k = 0 ∨
      (draw_row spr x row count j0 (registers, pixel)).2 k = 1 := by
  obtain ⟨hpix, -, -⟩ := draw_row_spec spr x row count j0 registers pixel
  by_cases hin : in_row x row j0 count k
  · rw [(hpix k).1 hin]
    rcases h with h | h <;>
      rcases sprite_bit_cases spr (k % SCREEN_WIDTH - x) with hb | hb <;>
      rw [h, hb] <;> decide
  · rw [(hpix k).2 hin]
    exact h

/-- A defined draw keeps the pixels `0` or `1`. -/
theorem draw_sprite_boolean (memory : Nat → Nat) (a x y : Nat) :
    ∀ (count i0 : Nat) (registers pixel registers1 pixel1 : Nat → Nat),
      draw_sprite memory a x y count i0 (registers, pixel) = .ok (registers1, pixel1) →
      ∀ k, (pixel k = 0 ∨ pixel k = 1) → (pixel1 k = 0 ∨ pixel1 k = 1) := by
  intro count
  induction count with
  | zero =>
    intro i0 registers pixel registers1 pixel1 h k hk
    simp only [draw_sprite, Except.ok.injEq, Prod.mk.injEq] at h
    rw [← h.2]
    exact hk
  | succ n ih =>
    intro i0 registers pixel registers1 pixel1 h k hk
    simp only [draw_sprite] at h
    split at h
    · simp only [Except.ok.injEq, Prod.mk.injEq] at h
      rw [← h.2]
      exact hk
    · split at h
      · simp only [reduceCtorEq] at h
      · exact ih (i0 + 1) _ _ registers1 pixel1 h k
          (draw_row_boolean (memory (a + i0)) x (y + i0) 8 0 registers pixel k hk)

/-- A defined `switch` keeps the pixels of the display `0` or `1`. -/
theorem execute_case_boolean (rand inst : Nat) (m m1 : Machine) (v : Bool) (inc : Nat)
    (h : execute_case rand inst m = .ok (m1, v, inc)) (hbool : boolean_display m.screen) :
    boolean_display m1.screen := by
  unfold execute_case at h
  simp only at h
  repeat' split at h
  all_goals
    first
    | (simp only [Except.ok.injEq, Prod.mk.injEq] at h
       obtain ⟨rfl, -, -⟩ := h
       first
       | exact hbool
       | (intro k hk
          exact Or.inl (if_pos hk))
       | (intro k hk
          exact draw_sprite_boolean _ _ _ _ _ _ _ _ _ _ ‹_› k (hbool k hk)))
    | (simp only [reduceCtorEq] at h)

/-- Every step with a defined result keeps the pixels of the display `0` or `1`. -/
theorem display_boolean_invariant (rand : Nat) (m m1 : Machine) (v : Bool)
    (h : execute_instruction rand m = .ok (v, m1)) (hbool : boolean_display m.screen) :
    boolean_display m1.screen := by
  unfold execute_instruction at h
  split at h
  · simp only [reduceCtorEq] at h
  · split at h
    · simp only [reduceCtorEq] at h
    · rename_i m2 v2 inc hcase
      simp only [Except.ok.injEq, Prod.mk.injEq] at h
      obtain ⟨-, rfl⟩ := h
      exact execute_case_boolean rand _ m m2 v2 inc hcase hbool

/-- Every run with a defined result keeps the pixels of the display `0` or `1`. -/
theorem run_boolean (rand : Nat) :
    ∀ (n : Nat) (m m1 : Machine), run rand n m = .ok m1 → boolean_display m.screen →
      boolean_display m1.screen := by
  intro n
  induction n with
  | zero =>
    intro m m1 h hbool
    simp only [run, Except.ok.injEq] at h
    rw [← h]
    exact hbool
  | succ n ih =>
    intro m m1 h hbool
    simp only [run] at h
    split at h
    · simp only [reduceCtorEq] at h
    · rename_i v m2 hstep
      exact ih m2 m1 h (display_boolean_invariant rand m m2 v hstep hbool)

/-- C12: for every state whose display pixels are `0` or `1` and `I + n <= 4096`, after the
step on `Dxyn` the register `VF` is `1` if at least one display pixel was on before the draw
and is off after it, and `0` otherwise, whatever `VF` was before. -/
theorem draw_collision_flag (rand : Nat) (m : Machine) (x y n : Nat) (hx : x < 16)
    (hy : y < 16) (hn : n < 16) (hfetch : fetch m.emulator = .ok (opcode 0xD x y n))
    (hI : m.emulator.memory_register + n ≤ 4096)
    (hbool : boolean_display m.screen) :
    ∃ m1, execute_instruction rand m = .ok (true, m1) ∧
      ((∃ k, k < PIXEL_COUNT ∧ m.screen.pixel k ≠ 0 ∧ m1.screen.pixel k = 0) →
        m1.emulator.registers 0xF = 1) ∧
      ((¬ ∃ k, k < PIXEL_COUNT ∧ m.screen.pixel k ≠ 0 ∧ m1.screen.pixel k = 0) →
        m1.emulator.registers 0xF = 0) := by
  obtain ⟨registers1, pixel1, hstep, hpix, hset, hkeep⟩ :=
    execute_Dxyn rand m x y n hx hy hn hfetch hI
  refine ⟨_, hstep, fun h => ?_, fun h => ?_⟩
  · show registers1 0xF = 1
    obtain ⟨k, -, hon, hoff⟩ := h
    have hoff1 : pixel1 k = 0 := hoff
    have hin : in_sprite (sprite_column m.emulator.registers x)
        (sprite_row m.emulator.registers y) 0 n k := by
      by_contra hin
      exact hon (by rw [← (hpix k).2 hin]; exact hoff1)
    have hval : sprite_value m.emulator.memory m.emulator.memory_register
        (sprite_column m.emulator.registers x) (sprite_row m.emulator.registers y) k ≠ 0 := by
      intro hzero
      rw [(hpix k).1 hin, hzero, Nat.xor_zero] at hoff1
      exact hon hoff1
    rw [hset ⟨k, hin, hon, hval⟩]
    simp [write, TRUE]
  · show registers1 0xF = 0
    have hnone : ¬ ∃ k, in_sprite (sprite_column m.emulator.registers x)
        (sprite_row m.emulator.registers y) 0 n k ∧ m.screen.pixel k ≠ 0 ∧
        sprite_value m.emulator.memory m.emulator.memory_register
          (sprite_column m.emulator.registers x) (sprite_row m.emulator.registers y) k ≠ 0 := by
      rintro ⟨k, hin, hon, hval⟩
      apply h
      refine ⟨k, in_sprite_lt hin, hon, ?_⟩
      show pixel1 k = 0
      have hone : m.screen.pixel k = 1 := by
        rcases hbool k (in_sprite_lt hin) with h0 | h1
        · exact absurd h0 hon
        · exact h1
      have hvone : sprite_value m.emulator.memory m.emulator.memory_register
          (sprite_column m.emulator.registers x) (sprite_row m.emulator.registers y) k = 1 := by
        rcases sprite_bit_cases
          (m.emulator.memory (m.emulator.memory_register +
            (k / SCREEN_WIDTH - sprite_row m.emulator.registers y)))
          (k % SCREEN_WIDTH - sprite_column m.emulator.registers x) with h0 | h1
        · exact absurd h0 hval
        · exact h1
      rw [(hpix k).1 hin, hone, hvone]
      rfl
    rw [hkeep hnone]
    simp [write, FALSE]

/-- The witness of C12: in the program `D005 6004 D005` the second draw puts the glyph `0`
next to the first one, with `VF = 0` afterwards; in the program `D005 D005` the second draw
turns pixel `0` off, with `VF = 1` afterwards. -/
theorem draw_collision_flag_scenario :
    (∃ m2 m3, run 0 2 (setup (rom draw_apart_program)) = .ok m2 ∧
      execute_instruction 0 m2 = .ok (true, m3) ∧ m3.emulator.registers 0xF = 0) ∧
    (∃ m1 m2, run 0 1 (setup (rom draw_twice_program)) = .ok m1 ∧
      m1.screen.pixel 0 = 1 ∧
      execute_instruction 0 m1 = .ok (true, m2) ∧ m2.screen.pixel 0 = 0 ∧
      m2.emulator.registers 0xF = 1) := by
  obtain ⟨m3, hstep3, -, -⟩ :=
    draw_collision_flag 0
      (final_state (run 0 2 (setup (rom draw_apart_program))) (setup (rom [])))
      0 0 5 (by decide) (by decide) (by decide) rfl (by decide)
      (run_boolean 0 2 (setup (rom draw_apart_program)) _ rfl (setup_boolean _))
  have hm3 : m3 = final_state (run 0 3 (setup (rom draw_apart_program))) (setup (rom [])) :=
    (Prod.mk.inj (Except.ok.inj (hstep3.symm.trans rfl))).2
  obtain ⟨m2, hstep2, hhit, -⟩ :=
    draw_collision_flag 0
      (final_state (run 0 1 (setup (rom draw_twice_program))) (setup (rom [])))
      0 0 5 (by decide) (by decide) (by decide) rfl (by decide)
      (run_boolean 0 1 (setup (rom draw_twice_program)) _ rfl (setup_boolean _))
  have hm2 : m2 = final_state (run 0 2 (setup (rom draw_twice_program))) (setup (rom [])) :=
    (Prod.mk.inj (Except.ok.inj (hstep2.symm.trans rfl))).2
  subst hm3
  subst hm2
  exact ⟨⟨_, _, rfl, hstep3, rfl⟩,
    ⟨_, _, rfl, rfl, hstep2, rfl, hhit ⟨0, by decide, by decide, rfl⟩⟩⟩

/-- Clear then draw for coordinate registers other than `VF`: for every state, the step on
`00E0` is defined and leaves all 2048 display pixels off; and when the next step is a `Dxyn`
with `x`, `y` other than `F` and `I + n <= 4096`, it is defined, a display pixel is on
afterwards if and only if it is the place of a set sprite bit that falls on the display, the
sprite being drawn from column `Vx mod 64` and row `Vy mod 32`, and `VF` is `0`. -/
theorem clear_then_draw (rand : Nat) (m : Machine)
    (hclear : fetch m.emulator = .ok (opcode 0 0 0xE 0)) :
    ∃ m1, execute_instruction rand m = .ok (true, m1) ∧
      (∀ k, k < PIXEL_COUNT → m1.screen.pixel k = 0) ∧
      ∀ (rand2 x y n : Nat), x < 16 → y < 16 → n < 16 → x ≠ 0xF → y ≠ 0xF →
        fetch m1.emulator = .ok (opcode 0xD x y n) →
        m1.emulator.memory_register + n ≤ 4096 →
        ∃ m2, execute_instruction rand2 m1 = .ok (true, m2) ∧
          (∀ k, k < PIXEL_COUNT →
            (m2.screen.pixel k ≠ 0 ↔
              sprite_sets m1.emulator.memory m1.emulator.memory_register
                (m1.emulator.registers x % 64) (m1.emulator.registers y % 32) n k)) ∧
          m2.emulator.registers 0xF = 0 := by
  rw [execute_instruction_of_fetch rand m _ hclear]
  simp only [execute_case, section0_eq, section2_eq, section3_eq,
    opcode_section0 (by decide : 0 < 16) (by decide : 0 < 16) (by decide : 0xE < 16)
      (by decide : 0 < 16),
    opcode_section2 (by decide : 0xE < 16) (by decide : 0 < 16),
    opcode_section3 (by decide : 0 < 16), if_pos]
  refine ⟨_, rfl, fun k hk => if_pos hk, ?_⟩
  intro rand2 x y n hx hy hn hxF hyF hdraw hI
  obtain ⟨registers2, pixel2, hstep, hpix, -, hkeep⟩ :=
    execute_Dxyn rand2 _ x y n hx hy hn hdraw hI
  simp only at hpix hkeep
  rw [sprite_column_eq _ x hxF, sprite_row_eq _ y hyF] at hpix hkeep
  refine ⟨_, hstep, fun k hk => ?_, ?_⟩
  · show pixel2 k ≠ 0 ↔ _
    rw [sprite_sets_iff]
    by_cases hin : in_sprite (m.emulator.registers x % 64) (m.emulator.registers y % 32) 0 n k
    · rw [(hpix k).1 hin, if_pos hk]
      simp only [FALSE, Nat.zero_xor]
      exact ⟨fun h => ⟨hin, h⟩, fun h => h.2⟩
    · rw [(hpix k).2 hin, if_pos hk]
      exact ⟨fun h => absurd rfl h, fun h => absurd h.1 hin⟩
  · show registers2 0xF = 0
    rw [hkeep (fun ⟨k, hin, hon, _⟩ => hon (if_pos (in_sprite_lt hin)))]
    simp [write, FALSE]

/-- An instance of `clear_then_draw`: in the program `00E0 D005` the clear leaves pixel `0`
off, and the draw of the glyph `0` at the origin turns pixel `0` on, leaves pixel `4` off,
and sets `VF = 0`. -/
theorem clear_then_draw_scenario :
    ∃ m1 m2, execute_instruction 0 (setup (rom clear_draw_program)) = .ok (true, m1) ∧
      m1.screen.pixel 0 = 0 ∧
      execute_instruction 0 m1 = .ok (true, m2) ∧
      m2.screen.pixel 0 ≠ 0 ∧ m2.screen.pixel 4 = 0 ∧ m2.emulator.registers 0xF = 0 := by
  obtain ⟨m1, hstep1, hoff, hdraw⟩ := clear_then_draw 0 (setup (rom clear_draw_program)) rfl
  have hm1 : m1 = final_state (run 0 1 (setup (rom clear_draw_program))) (setup (rom [])) :=
    (Prod.mk.inj (Except.ok.inj (hstep1.symm.trans rfl))).2
  subst hm1
  obtain ⟨m2, hstep2, hon, hflag⟩ :=
    hdraw 0 0 0 5 (by decide) (by decide) (by decide) (by decide) (by decide) rfl (by decide)
  refine ⟨_, m2, hstep1, hoff 0 (by decide), hstep2, (hon 0 (by decide)).2 (by decide), ?_,
    hflag⟩
  by_contra h4
  exact absurd ((hon 4 (by decide)).1 h4) (by decide)

/-- C13, the code at a failing input: in the program `6F01 00E0 DF01` the clear leaves the
display off with `VF = 1`, `V0 = 0`, `I = 0` and the sprite byte `0xF0`; the draw `DF01`
names column `VF` and row `V0`, so the set sprite bits fall on columns `1 .. 4` of row `0`:
pixel `4` is such a place and pixel `0` is not. The code resets `VF` before it reads the
column and draws from column `0`: after the draw pixel `0` is on and pixel `4` is off. -/
theorem clear_then_draw_column_VF :
    ∃ m1 m2 m3, execute_instruction 0 (setup (rom clear_draw_VF_program)) = .ok (true, m1) ∧
      fetch m1.emulator = .ok (opcode 0 0 0xE 0) ∧
      execute_instruction 0 m1 = .ok (true, m2) ∧
      m2.screen.pixel 0 = 0 ∧ m2.screen.pixel 4 = 0 ∧
      m2.emulator.registers 0xF = 1 ∧ m2.emulator.registers 0 = 0 ∧
      m2.emulator.memory_register = 0 ∧ m2.emulator.memory 0 = 0xF0 ∧
      fetch m2.emulator = .ok (opcode 0xD 0xF 0 1) ∧
      sprite_sets m2.emulator.memory m2.emulator.memory_register
        (m2.emulator.registers 0xF % 64) (m2.emulator.registers 0 % 32) 1 4 ∧
      ¬ sprite_sets m2.emulator.memory m2.emulator.memory_register
        (m2.emulator.registers 0xF % 64) (m2.emulator.registers 0 % 32) 1 0 ∧
      execute_instruction 0 m2 = .ok (true, m3) ∧
      m3.screen.pixel 0 = 1 ∧ m3.screen.pixel 4 = 0 :=
  ⟨final_state (run 0 1 (setup (rom clear_draw_VF_program))) (setup (rom [])),
    final_state (run 0 2 (setup (rom clear_draw_VF_program))) (setup (rom [])),
    final_state (run 0 3 (setup (rom clear_draw_VF_program))) (setup (rom [])),
    rfl, rfl, rfl, rfl, rfl, rfl, rfl, rfl, rfl, rfl, by decide, by decide, rfl, rfl, rfl⟩

/-! ## Bytes stay bytes -/

theorem uint8_lt (v : Int) : uint8 v < 256 := by
  unfold uint8
  omega

theorem c_bool_lt (p : Prop) [Decidable p] : c_bool p < 256 := by
  unfold c_bool
  split <;> decide

/-- A defined store loop that stores bytes keeps a memory of bytes. -/
theorem store_loop_lt (value : Nat → Nat) (a : Nat) (hvalue : ∀ i, value i < 256) :
    ∀ (count : Nat) (memory memory1 : Nat → Nat),
      store_loop value a count memory = .ok memory1 → (∀ k, memory k < 256) →
      ∀ k, memory1 k < 256 := by
  intro count
  induction count with
  | zero =>
    intro memory memory1 h hmem k
    simp only [store_loop, Except.ok.injEq] at h
    rw [← h]
    exact hmem k
  | succ n ih =>
    intro memory memory1 h hmem k
    simp only [store_loop] at h
    split at h
    · simp only [reduceCtorEq] at h
    · rename_i memory2 hloop
      split at h
      · simp only [reduceCtorEq] at h
      · simp only [Except.ok.injEq] at h
        rw [← h]
        simp only [write]
        split
        · exact hvalue n
        · exact ih memory memory2 hloop hmem k

/-- A defined load loop from a memory of bytes keeps registers of bytes. -/
theorem load_loop_lt (memory : Nat → Nat) (a : Nat) (hmem : ∀ k, memory k < 256) :
    ∀ (count : Nat) (registers registers1 : Nat → Nat),
      load_loop memory a count registers = .ok registers1 → (∀ r, registers r < 256) →
      ∀ r, registers1 r < 256 := by
  intro count
  induction count with
  | zero =>
    intro registers registers1 h hreg r
    simp only [load_loop, Except.ok.injEq] at h
    rw [← h]
    exact hreg r
  | succ n ih =>
    intro registers registers1 h hreg r
    simp only [load_loop] at h
    split at h
    · simp only [reduceCtorEq] at h
    · rename_i registers2 hloop
      split at h
      · simp only [reduceCtorEq] at h
      · simp only [Except.ok.injEq] at h
        rw [← h]
        simp only [write]
        split
        · exact hmem _
        · exact ih registers registers2 hloop hreg r

/-- The inner loop of `Dxyn` keeps registers of bytes. -/
theorem draw_row_lt (spr x row count j0 : Nat) (registers pixel : Nat → Nat)
    (hreg : ∀ r, registers r < 256) (r : Nat) :
    (draw_row spr x row count j0 (registers, pixel)).1 r < 256 := by
  obtain ⟨-, hset, hkeep⟩ := draw_row_spec spr x row count j0 registers pixel
  by_cases hc : ∃ k, in_row x row j0 count k ∧ pixel k ≠ 0 ∧
      sprite_bit spr (k % SCREEN_WIDTH - x) ≠ 0
  · rw [hset hc]
    simp only [write, TRUE]
    split
    · decide
    · exact hreg r
  · rw [hkeep hc]
    exact hreg r

/-- A defined draw keeps registers of bytes. -/
theorem draw_sprite_lt (memory : Nat → Nat) (a x y : Nat) :
    ∀ (count i0 : Nat) (registers pixel registers1 pixel1 : Nat → Nat),
      draw_sprite memory a x y count i0 (registers, pixel) = .ok (registers1, pixel1) →
      (∀ r, registers r < 256) → ∀ r, registers1 r < 256 := by
  intro count
  induction count with
  | zero =>
    intro i0 registers pixel registers1 pixel1 h hreg r
    simp only [draw_sprite, Except.ok.injEq, Prod.mk.injEq] at h
    rw [← h.1]
    exact hreg r
  | succ n ih =>
    intro i0 registers pixel registers1 pixel1 h hreg r
    simp only [draw_sprite] at h
    split at h
    · simp only [Except.ok.injEq, Prod.mk.injEq] at h
      rw [← h.1]
      exact hreg r
    · split at h
      · simp only [reduceCtorEq] at h
      · exact ih (i0 + 1) _ _ registers1 pixel1 h
          (draw_row_lt (memory (a + i0)) x (y + i0) 8 0 registers pixel hreg) r

/-- A defined `switch` keeps the memory, the registers and the delay timer bytes. -/
theorem execute_case_bytes (rand inst : Nat) (m m1 : Machine) (v : Bool) (inc : Nat)
    (h : execute_case rand inst m = .ok (m1, v, inc)) (hbytes : holds_bytes m.emulator) :
    holds_bytes m1.emulator := by
  obtain ⟨hmem, hreg, hdelay⟩ := hbytes
  unfold execute_case at h
  simp only at h
  repeat' split at h
  all_goals
    first
    | (simp only [Except.ok.injEq, Prod.mk.injEq] at h
       obtain ⟨rfl, -, -⟩ := h
       refine ⟨?_, ?_, ?_⟩
       · first
         | exact hmem
         | exact store_loop_lt _ _ (fun i => Nat.mod_lt _ (by decide)) _ _ _ ‹_› hmem
         | exact store_loop_lt _ _ hreg _ _ _ ‹_› hmem
       · first
         | exact hreg
         | exact load_loop_lt _ _ hmem _ _ _ ‹_› hreg
         | exact draw_sprite_lt _ _ _ _ _ _ _ _ _ _ ‹_›
             (fun r => by
               simp only [write, FALSE]
               split
               · decide
               · exact hreg r)
         | (intro r
            simp only [write]
            repeat' split
            all_goals
              first
              | exact hreg _
              | exact hdelay
              | exact uint8_lt _
              | exact c_bool_lt _
              | exact Nat.mod_lt _ (by decide)
              | (simp only [FALSE, TRUE]; omega))
       · first
         | exact hdelay
         | exact hreg _)
    | (simp only [reduceCtorEq] at h)

/-- The state `setup` builds from a ROM of bytes holds bytes. -/
theorem setup_bytes (bytes : List Nat) (h : ∀ b ∈ bytes, b < 256) :
    holds_bytes (setup (rom bytes)).emulator :=
  ⟨setup_memory_lt bytes h, fun _ => by simp [setup, load_game],
    by simp [setup, load_game]⟩

/-- Every step with a defined result keeps the memory, the registers and the delay timer
bytes. -/
theorem bytes_invariant (rand : Nat) (m m1 : Machine) (v : Bool)
    (h : execute_instruction rand m = .ok (v, m1)) (hbytes : holds_bytes m.emulator) :
    holds_bytes m1.emulator := by
  unfold execute_instruction at h
  split at h
  · simp only [reduceCtorEq] at h
  · split at h
    · simp only [reduceCtorEq] at h
    · rename_i m2 v2 inc hcase
      simp only [Except.ok.injEq, Prod.mk.injEq] at h
      obtain ⟨-, rfl⟩ := h
      exact execute_case_bytes rand _ m m2 v2 inc hcase hbytes

end Chip8
